import Mathlib

/-!
# Echoes of Madness — session engine verification

Shallow embedding of the session engine of the "Echoes of Madness" cooperative
investigation game, together with proofs of the behavioural properties stated
in its specification.  Each component is embedded from the TypeScript source:

* `DiceRoller` — the dice overlay (`src/components/DiceRoller.tsx`): success
  counting, pass/fail, clue-to-success conversion.
* `App` — the current session host (`src/unnamed/part_000`): search
  resolution, finale spawn, damage application, turn rotation, dungeon tile
  placement, and the combat resolution pipeline.
* `AppOld` — the older host variant kept in the repository
  (`src/constants.ts`, below the investigator/item tables): monster movement
  (breadth-first search over the door/room graph) and the older combat
  resolver.
* `Gemini` — the content bridge (`src/components/CodePuzzle.tsx`, service
  section): retry wrapper and the offline circuit-breaker latch.

Machine integers are modelled as `Int`/`Nat` (no arithmetic here overflows a
JS double); `Math.random()` draws are modelled as rational parameters in
`[0,1)`; JS `NaN` propagation (relevant to the combat bug) is modelled with
`Option Int` where `none` stands for `NaN`.
-/

/-! ## Dice faces (src/types.ts, `DiceFace`; src/constants.ts `DICE_FACES`) -/

/-- `DiceFace` from `src/types.ts`: `ElderSign = 'PASS'`, `Clue = 'CLUE'`,
`Blank = 'FAIL'`. -/
inductive DiceFace where
  | ElderSign
  | Clue
  | Blank
deriving DecidableEq, Repr

namespace DiceRoller

/-- `src/components/DiceRoller.tsx` line 59:
`passes = results.filter(r => r === DiceFace.ElderSign).length`. -/
def passes (results : List DiceFace) : Nat :=
  (results.filter (fun r => r = DiceFace.ElderSign)).length

/-- `src/components/DiceRoller.tsx` line 60:
`clues = results.filter(r => r === DiceFace.Clue).length`. -/
def clues (results : List DiceFace) : Nat :=
  (results.filter (fun r => r = DiceFace.Clue)).length

/-- `src/components/DiceRoller.tsx` line 61: `isPass = passes >= target`. -/
def isPass (results : List DiceFace) (target : Nat) : Bool :=
  decide (passes results ≥ target)

/-- The dice-roller's local component state after a roll: the shown faces and
the number of clues spent so far (`results` / `spentClues` in
`DiceRoller.tsx`). -/
structure RollState where
  results : List DiceFace
  spentClues : Nat
deriving DecidableEq, Repr

/-- `convertClue` (`src/components/DiceRoller.tsx` lines 49–57): guard
`spentClues >= playerClues` returns unchanged; a face that is not currently
`Clue` (including an out-of-range index, JS `undefined`) returns unchanged;
otherwise the face becomes `ElderSign` and `spentClues` increments. -/
def convertClue (playerClues : Nat) (s : RollState) (index : Nat) : RollState :=
  if s.spentClues ≥ playerClues then s
  else if s.results[index]? = some DiceFace.Clue then
    { results := s.results.set index DiceFace.ElderSign
      spentClues := s.spentClues + 1 }
  else s

/-- A sequence of clue-conversion clicks applied in order. -/
def convertClues (playerClues : Nat) (s : RollState) (indices : List Nat) : RollState :=
  indices.foldl (convertClue playerClues) s

/-- The clue deduction performed by the host when the roll completes
(`src/unnamed/part_000` lines 2001–2006):
`clues: p.clues - cluesSpent`, over JS numbers (modelled as `Int` so that a
negative result would be representable). -/
def deductClues (playerCluesAtCompletion : Int) (cluesSpent : Nat) : Int :=
  playerCluesAtCompletion - cluesSpent

end DiceRoller

/-! ## C1: success counting and pass condition -/

/-- **C1.** For every dice-roll resolution, the success count equals the number
of faces equal to Success (`ElderSign`) — after any conversions, since `passes`
is computed from the current `results` — and the check passes iff the success
count is at least `target`.  Appending any number of `Blank` or `Clue` faces
changes neither the success count nor the outcome. -/
theorem claim_C1_dice_pass (results : List DiceFace) (target : Nat) :
    DiceRoller.passes results = results.count DiceFace.ElderSign ∧
    (DiceRoller.isPass results target = true ↔
      results.count DiceFace.ElderSign ≥ target) ∧
    (∀ extra : List DiceFace,
      (∀ f ∈ extra, f = DiceFace.Clue ∨ f = DiceFace.Blank) →
      DiceRoller.passes (results ++ extra) = DiceRoller.passes results ∧
      DiceRoller.isPass (results ++ extra) target = DiceRoller.isPass results target) := by
  have hcount : DiceRoller.passes results = results.count DiceFace.ElderSign := by
    unfold DiceRoller.passes
    induction results with
    | nil => rfl
    | cons a l ih =>
      by_cases h : a = DiceFace.ElderSign
      · subst h
        simp [List.filter, List.count_cons, ih]
      · simp [List.filter, List.count_cons, h, ih]
  refine ⟨hcount, ?_, ?_⟩
  · unfold DiceRoller.isPass
    rw [hcount]
    exact decide_eq_true_iff
  · intro extra hextra
    have hzero : (extra.filter (fun r => r = DiceFace.ElderSign)).length = 0 := by
      rw [List.length_eq_zero]
      rw [List.filter_eq_nil_iff]
      intro f hf
      rcases hextra f hf with h | h <;> simp [h]
    have hpad : DiceRoller.passes (results ++ extra) = DiceRoller.passes results := by
      unfold DiceRoller.passes
      rw [List.filter_append, List.length_append, hzero, Nat.add_zero]
    exact ⟨hpad, by unfold DiceRoller.isPass; rw [hpad]⟩

/-! ## C5: clue conversion -/

/-- Characterisation of one conversion click: either the state is unchanged, or
the clicked face was showing `Clue`, the spent-clue budget was not exhausted,
exactly that face flips to `ElderSign` and `spentClues` rises by exactly 1. -/
theorem convertClue_step (playerClues : Nat) (s : DiceRoller.RollState) (i : Nat) :
    DiceRoller.convertClue playerClues s i = s ∨
    (s.results[i]? = some DiceFace.Clue ∧
     s.spentClues < playerClues ∧
     (DiceRoller.convertClue playerClues s i).results
        = s.results.set i DiceFace.ElderSign ∧
     (DiceRoller.convertClue playerClues s i).spentClues = s.spentClues + 1) := by
  unfold DiceRoller.convertClue
  by_cases hbudget : s.spentClues ≥ playerClues
  · left; simp [hbudget]
  · by_cases hface : s.results[i]? = some DiceFace.Clue
    · right
      refine ⟨hface, Nat.lt_of_not_le hbudget, ?_, ?_⟩ <;> simp [hbudget, hface]
    · left; simp [hbudget, hface]

/-- Spent clues never exceed the player's clue budget, for any click sequence
starting from a fresh roll (`spentClues = 0`). -/
theorem convertClues_budget (playerClues : Nat) (s : DiceRoller.RollState)
    (hs : s.spentClues ≤ playerClues) (indices : List Nat) :
    (DiceRoller.convertClues playerClues s indices).spentClues ≤ playerClues := by
  induction indices generalizing s with
  | nil => exact hs
  | cons i rest ih =>
    have hstep : (DiceRoller.convertClue playerClues s i).spentClues ≤ playerClues := by
      rcases convertClue_step playerClues s i with h | ⟨_, hlt, _, hspent⟩
      · rw [h]; exact hs
      · rw [hspent]; exact hlt
    exact ih _ hstep

/-- **C5.** For every conversion of a Clue face during a dice roll: a
conversion is only applied to a face currently showing `Clue`, each applied
conversion increments `spentClues` by exactly 1 (and rewrites exactly that
face to `ElderSign`), after any sequence of clicks the spent total never
exceeds the player's clues, and the final deduction
`clues - cluesSpent` performed by the host never drives the clue count
negative. -/
theorem claim_C5_clue_conversion (playerClues : Nat) (results : List DiceFace)
    (indices : List Nat) :
    (∀ s : DiceRoller.RollState, ∀ i : Nat,
      DiceRoller.convertClue playerClues s i = s ∨
      (s.results[i]? = some DiceFace.Clue ∧
       s.spentClues < playerClues ∧
       (DiceRoller.convertClue playerClues s i).results
          = s.results.set i DiceFace.ElderSign ∧
       (DiceRoller.convertClue playerClues s i).spentClues = s.spentClues + 1)) ∧
    (DiceRoller.convertClues playerClues ⟨results, 0⟩ indices).spentClues ≤ playerClues ∧
    0 ≤ DiceRoller.deductClues playerClues
          (DiceRoller.convertClues playerClues ⟨results, 0⟩ indices).spentClues := by
  refine ⟨fun s i => convertClue_step playerClues s i, ?_, ?_⟩
  · exact convertClues_budget playerClues ⟨results, 0⟩ (Nat.zero_le _) indices
  · have h := convertClues_budget playerClues ⟨results, 0⟩ (Nat.zero_le _) indices
    unfold DiceRoller.deductClues
    omega

/-! ## Session data model (src/types.ts) -/

/-- `TokenType` from `src/types.ts`. -/
inductive TokenType where
  | Explore
  | Search
  | Interact
  | Sight
  | Escape
deriving DecidableEq, Repr

/-- Cardinal door directions (`'North' | 'South' | 'East' | 'West'`). -/
inductive Dir where
  | North
  | South
  | East
  | West
deriving DecidableEq, Repr

/-- `Player` from `src/types.ts` (fields the session engine reads; the
attribute record is kept as the single score the resolver consults plus the
full strength score used by combat). -/
structure Player where
  id : String
  name : String
  investigatorId : String
  clues : Int
  items : List String
  health : Int
  sanity : Int
  strength : Nat
  x : Int
  y : Int
  movesRemaining : Int
  actionsRemaining : Int
  isWounded : Bool
  isInsane : Bool
  secretObjective : Option String
  usedItemAbilityRound : Bool
deriving DecidableEq, Repr

/-- `Monster` from `src/types.ts`. -/
structure Monster where
  id : String
  templateId : String
  name : String
  health : Int
  maxHealth : Int
  damage : Int
  horror : Int
  x : Int
  y : Int
  tier : Nat
deriving DecidableEq, Repr

/-- `Token` from `src/types.ts`. -/
structure Token where
  id : String
  type : TokenType
  x : Int
  y : Int
  resolved : Bool
  direction : Option Dir
  difficulty : Option Nat
deriving DecidableEq, Repr

/-- `Tile` from `src/types.ts` (fields read by the engine). -/
structure Tile where
  id : String
  roomId : String
  x : Int
  y : Int
  imageType : String
deriving DecidableEq, Repr

/-- `GamePhase` from `src/types.ts`. -/
inductive GamePhase where
  | Lobby
  | ItemDistribution
  | Setup
  | Playing
  | Mythos
  | DiceRoll
  | Puzzle
  | GameOver
  | Victory
deriving DecidableEq, Repr

/-- `GameState` from `src/types.ts` (authoritative session fields the claims
touch). -/
structure GameState where
  phase : GamePhase
  round : Nat
  players : List Player
  monsters : List Monster
  currentPlayerIndex : Nat
  tiles : List Tile
  tokens : List Token
  itemDeck : List String
  evidenceCollected : Nat
  evidenceRequired : Nat
  isEscapeOpen : Bool
deriving DecidableEq, Repr

/-- In-place update of the element at one list index (the JS idiom
`newPlayers[i].field = ...` on a copied array). -/
def modifyIdx {α : Type} : List α → Nat → (α → α) → List α
  | [], _, _ => []
  | a :: l, 0, f => f a :: l
  | a :: l, i + 1, f => a :: modifyIdx l i f

namespace App

/-- `INVESTIGATOR_TEMPLATES` health column (`src/constants.ts`), consulted by
`applyDamage` to restore a newly wounded player's health; the JS fallback for
an unknown template id is 7. -/
def templateHealthFor (invId : String) : Int :=
  if invId = "inv_1" then 7
  else if invId = "inv_2" then 7
  else if invId = "inv_3" then 6
  else if invId = "inv_4" then 8
  else if invId = "inv_5" then 6
  else if invId = "inv_6" then 7
  else if invId = "inv_7" then 9
  else if invId = "inv_8" then 6
  else if invId = "inv_9" then 6
  else if invId = "inv_10" then 7
  else 7

/-- The synchronous state update of `applyDamage`
(`src/unnamed/part_000` lines 803–856): subtract damage/horror; a wounded
player at health ≤ 0 is eliminated (removed from the session); otherwise a
player at health ≤ 0 becomes wounded with health restored to the template
maximum and moves/actions capped at 1; sanity ≤ 0 is clamped to 0 and flips
`isInsane` when not already insane. -/
def applyDamageState (s : GameState) (playerId : String) (damage horror : Int) :
    GameState :=
  match s.players.find? (fun p => p.id = playerId) with
  | none => s
  | some player =>
    let newHealth := player.health - damage
    let newSanity := player.sanity - horror
    if newHealth ≤ 0 ∧ player.isWounded then
      { s with players := s.players.filter (fun p => ¬(p.id = playerId)) }
    else
      let becameWounded := decide (newHealth ≤ 0)
      let newIsWounded := if newHealth ≤ 0 then true else player.isWounded
      let restoredHealth :=
        if newHealth ≤ 0 then templateHealthFor player.investigatorId else newHealth
      let finalSanity := if newSanity ≤ 0 then 0 else newSanity
      let newIsInsane := if newSanity ≤ 0 then true else player.isInsane
      let updatedPlayer : Player :=
        { player with
            health := restoredHealth
            sanity := finalSanity
            isWounded := newIsWounded
            isInsane := newIsInsane
            actionsRemaining :=
              if becameWounded ∧ ¬player.isWounded then
                min player.actionsRemaining 1
              else player.actionsRemaining
            movesRemaining :=
              if becameWounded ∧ ¬player.isWounded then
                min player.movesRemaining 1
              else player.movesRemaining }
      { s with
          players := s.players.map (fun p => if p.id = playerId then updatedPlayer else p) }

/-- The asynchronous tail of `applyDamage`
(`src/unnamed/part_000` lines 858–868): when the pre-damage player existed,
was not already insane, and `sanity - horror ≤ 0`, a secret objective string
is requested and written onto the player. -/
def assignObjective (pre : GameState) (s1 : GameState) (playerId : String)
    (horror : Int) (objective : String) : GameState :=
  match pre.players.find? (fun p => p.id = playerId) with
  | none => s1
  | some player =>
    if player.isInsane = false ∧ player.sanity - horror ≤ 0 then
      { s1 with
          players := s1.players.map (fun p =>
            if p.id = playerId then { p with secretObjective := some objective } else p) }
    else s1

/-- Full `applyDamage` (state update then deferred objective assignment),
sequentially composed as the host executes it. -/
def applyDamage (s : GameState) (playerId : String) (damage horror : Int)
    (objective : String) : GameState :=
  assignObjective s (applyDamageState s playerId damage horror) playerId horror objective

end App

/-! ## C9: insanity flip and secret objective -/

/-- `find?` commutes with a map that rewrites only matching elements and
preserves match status. -/
theorem find?_map_pred {α : Type} (l : List α) (pred : α → Bool) (g : α → α)
    (hg : ∀ a, pred (g a) = pred a) :
    (l.map g).find? pred = (l.find? pred).map g := by
  induction l with
  | nil => rfl
  | cons a l ih =>
    by_cases h : pred a = true
    · simp [List.find?, h, hg a]
    · have h' : pred a = false := Bool.eq_false_iff.mpr h
      simp [List.find?, h', hg a, ih]

/-- `applyDamage` on a present, not-yet-insane player whose sanity falls to 0
or below and who survives the health damage: the player ends with sanity
clamped to 0, the insanity flag set, and the secret objective assigned. -/
theorem applyDamage_goes_insane (s : GameState) (pid : String) (p : Player)
    (damage horror : Int) (obj : String)
    (hfind : s.players.find? (fun q => q.id = pid) = some p)
    (hsan : p.sanity - horror ≤ 0)
    (hins : p.isInsane = false)
    (hsurv : ¬(p.health - damage ≤ 0 ∧ p.isWounded = true)) :
    ∃ p1, (App.applyDamage s pid damage horror obj).players.find?
            (fun q => q.id = pid) = some p1 ∧
      p1.sanity = 0 ∧ p1.isInsane = true ∧ p1.secretObjective = some obj := by
  have hpid : p.id = pid := by
    have h := List.find?_some hfind
    exact of_decide_eq_true h
  unfold App.applyDamage App.applyDamageState
  rw [hfind]
  simp only [hsurv, if_false]
  set upd : Player :=
    { p with
        health := if p.health - damage ≤ 0 then App.templateHealthFor p.investigatorId
                  else p.health - damage
        sanity := if p.sanity - horror ≤ 0 then 0 else p.sanity - horror
        isWounded := if p.health - damage ≤ 0 then true else p.isWounded
        isInsane := if p.sanity - horror ≤ 0 then true else p.isInsane
        actionsRemaining :=
          if decide (p.health - damage ≤ 0) ∧ ¬p.isWounded then
            min p.actionsRemaining 1
          else p.actionsRemaining
        movesRemaining :=
          if decide (p.health - damage ≤ 0) ∧ ¬p.isWounded then
            min p.movesRemaining 1
          else p.movesRemaining } with hupd
  have hupdid : upd.id = pid := by rw [hupd]; exact hpid
  unfold App.assignObjective
  simp only [hfind]
  rw [if_pos ⟨hins, hsan⟩]
  refine ⟨{ upd with secretObjective := some obj }, ?_, ?_, ?_, rfl⟩
  · show (List.map _ (List.map (fun q => if q.id = pid then upd else q) s.players)).find? _ = _
    rw [find?_map_pred _ _ _ (fun a => by
      by_cases h : a.id = pid <;> simp [h])]
    rw [find?_map_pred _ _ _ (fun a => by
      by_cases h : a.id = pid <;> simp [h, hupdid])]
    rw [hfind]
    simp [hpid, hupdid]
  · show upd.sanity = 0
    rw [hupd]; simp [hsan]
  · show upd.isInsane = true
    rw [hupd]; simp [hsan]

/-- `applyDamage` on a present, already-insane player who survives the health
damage: the insanity flag stays set, the secret objective is left untouched,
and a previously clamped sanity stays at 0 under non-negative horror. -/
theorem applyDamage_already_insane (s : GameState) (pid : String) (p : Player)
    (damage horror : Int) (obj : String)
    (hfind : s.players.find? (fun q => q.id = pid) = some p)
    (hins : p.isInsane = true)
    (hsurv : ¬(p.health - damage ≤ 0 ∧ p.isWounded = true)) :
    ∃ p2, (App.applyDamage s pid damage horror obj).players.find?
            (fun q => q.id = pid) = some p2 ∧
      p2.isInsane = true ∧ p2.secretObjective = p.secretObjective ∧
      (p.sanity = 0 → 0 ≤ horror → p2.sanity = 0) := by
  have hpid : p.id = pid := by
    have h := List.find?_some hfind
    exact of_decide_eq_true h
  unfold App.applyDamage App.applyDamageState
  rw [hfind]
  simp only [hsurv, if_false]
  set upd : Player :=
    { p with
        health := if p.health - damage ≤ 0 then App.templateHealthFor p.investigatorId
                  else p.health - damage
        sanity := if p.sanity - horror ≤ 0 then 0 else p.sanity - horror
        isWounded := if p.health - damage ≤ 0 then true else p.isWounded
        isInsane := if p.sanity - horror ≤ 0 then true else p.isInsane
        actionsRemaining :=
          if decide (p.health - damage ≤ 0) ∧ ¬p.isWounded then
            min p.actionsRemaining 1
          else p.actionsRemaining
        movesRemaining :=
          if decide (p.health - damage ≤ 0) ∧ ¬p.isWounded then
            min p.movesRemaining 1
          else p.movesRemaining } with hupd
  have hupdid : upd.id = pid := by rw [hupd]; exact hpid
  have hguard : ¬(p.isInsane = false ∧ p.sanity - horror ≤ 0) := by
    intro ⟨hf, _⟩; rw [hins] at hf; exact Bool.noConfusion hf
  unfold App.assignObjective
  simp only [hfind]
  rw [if_neg hguard]
  refine ⟨upd, ?_, ?_, ?_, ?_⟩
  · show (List.map (fun q => if q.id = pid then upd else q) s.players).find? _ = _
    rw [find?_map_pred _ _ _ (fun a => by
      by_cases h : a.id = pid <;> simp [h, hupdid])]
    rw [hfind]
    simp [hpid]
  · show upd.isInsane = true
    rw [hupd]
    by_cases h : p.sanity - horror ≤ 0 <;> simp [h, hins]
  · show upd.secretObjective = p.secretObjective
    rw [hupd]
  · intro hz hh
    show upd.sanity = 0
    rw [hupd]
    have : p.sanity - horror ≤ 0 := by omega
    simp [this]

/-- **C9.** For every application of damage/horror to a present player: if
sanity falls to 0 or below and the player was not already insane (and the
player survives the accompanying health damage), `isInsane` is set, sanity is
clamped to 0, and the secret objective is assigned; a further application of
horror while already insane leaves the flag and the objective unchanged and
keeps sanity clamped at 0 — so both happen exactly once. -/
theorem claim_C9_insanity (s : GameState) (pid : String) (p : Player)
    (damage horror d2 h2 : Int) (obj obj2 : String)
    (hfind : s.players.find? (fun q => q.id = pid) = some p)
    (hsan : p.sanity - horror ≤ 0)
    (hins : p.isInsane = false)
    (hsurv : ¬(p.health - damage ≤ 0 ∧ p.isWounded = true)) :
    ∃ p1, (App.applyDamage s pid damage horror obj).players.find?
            (fun q => q.id = pid) = some p1 ∧
      p1.sanity = 0 ∧ p1.isInsane = true ∧ p1.secretObjective = some obj ∧
      (¬(p1.health - d2 ≤ 0 ∧ p1.isWounded = true) → 0 ≤ h2 →
        ∃ p2, (App.applyDamage (App.applyDamage s pid damage horror obj)
                  pid d2 h2 obj2).players.find? (fun q => q.id = pid) = some p2 ∧
          p2.isInsane = true ∧ p2.secretObjective = some obj ∧ p2.sanity = 0) := by
  obtain ⟨p1, hfind1, hs1, hi1, ho1⟩ :=
    applyDamage_goes_insane s pid p damage horror obj hfind hsan hins hsurv
  refine ⟨p1, hfind1, hs1, hi1, ho1, ?_⟩
  intro hsurv2 hh2
  obtain ⟨p2, hfind2, hi2, ho2, hsan2⟩ :=
    applyDamage_already_insane (App.applyDamage s pid damage horror obj) pid p1
      d2 h2 obj2 hfind1 hi1 hsurv2
  exact ⟨p2, hfind2, hi2, by rw [ho2, ho1], hsan2 hs1 hh2⟩

/-- Sample session for the C9 witness: one player at sanity 1, health 5. -/
def sampleC9Player : Player :=
  { id := "p1", name := "Ada", investigatorId := "inv_1", clues := 0, items := []
    health := 5, sanity := 1, strength := 3, x := 0, y := 0
    movesRemaining := 2, actionsRemaining := 2, isWounded := false
    isInsane := false, secretObjective := none, usedItemAbilityRound := false }

/-- Sample session state for the C9 witness. -/
def sampleC9State : GameState :=
  { phase := GamePhase.Playing, round := 1, players := [sampleC9Player]
    monsters := [], currentPlayerIndex := 0, tiles := [], tokens := []
    itemDeck := [], evidenceCollected := 0, evidenceRequired := 5
    isEscapeOpen := false }

/-- Witness for C9 at a concrete input: the spec's own example — a player at
sanity 1 takes 2 horror. -/
theorem claim_C9_insanity_witness :
    ∃ p1, (App.applyDamage sampleC9State "p1" 0 2 "objA").players.find?
            (fun q => q.id = "p1") = some p1 ∧
      p1.sanity = 0 ∧ p1.isInsane = true ∧ p1.secretObjective = some "objA" ∧
      (¬(p1.health - 0 ≤ 0 ∧ p1.isWounded = true) → (0 : Int) ≤ 2 →
        ∃ p2, (App.applyDamage (App.applyDamage sampleC9State "p1" 0 2 "objA")
                  "p1" 0 2 "objB").players.find? (fun q => q.id = "p1") = some p2 ∧
          p2.isInsane = true ∧ p2.secretObjective = some "objA" ∧ p2.sanity = 0) :=
  claim_C9_insanity sampleC9State "p1" sampleC9Player 0 2 0 2 "objA" "objB"
    (by decide) (by decide) (by decide) (by decide)

/-! ## C4: search reward draw and apply-time deck check -/

/-- The reward kinds of `resolveSearch` (`src/unnamed/part_000` line 1231:
`'None' | 'Evidence' | 'Item' | 'Clue'`). -/
inductive RewardType where
  | None
  | Evidence
  | Item
  | Clue
deriving DecidableEq, Repr

namespace App

/-- The reward draw of `resolveSearch` (`src/unnamed/part_000` lines
1234–1248), with `Math.random()` as the parameter `roll ∈ [0,1)` and the
fresh state read through `gameStateRef.current` as `stDec`:
Evidence on `!isEscapeOpen && roll < 0.20`, else Item on
`roll < 0.65 && itemDeck.length > 0`, else Clue; `None` on failure. -/
def rewardDecision (success : Bool) (roll : ℚ) (stDec : GameState) : RewardType :=
  if success then
    if stDec.isEscapeOpen = false ∧ roll < 1/5 then RewardType.Evidence
    else if roll < 13/20 ∧ stDec.itemDeck.length > 0 then RewardType.Item
    else RewardType.Clue
  else RewardType.None

/-- The state update of `resolveSearch` (`src/unnamed/part_000` lines
1257–1304), applied against the apply-time state `prev`: on success the
reward is granted — an Item pops the deck's last entry if one is still there
at apply time, and grants a Clue otherwise — and the Search token is removed;
the acting player's `actionsRemaining` is always decremented. -/
def applySearchResult (prev : GameState) (tokenId : String) (success : Bool)
    (rwType : RewardType) : GameState :=
  let afterReward :=
    if success then
      let base :=
        match rwType with
        | RewardType.Evidence =>
          { prev with evidenceCollected := prev.evidenceCollected + 1 }
        | RewardType.Item =>
          match prev.itemDeck.getLast? with
          | some popped =>
            { prev with
                itemDeck := prev.itemDeck.dropLast
                players := modifyIdx prev.players prev.currentPlayerIndex
                  (fun p => { p with items := p.items ++ [popped] }) }
          | none =>
            { prev with
                itemDeck := prev.itemDeck.dropLast
                players := modifyIdx prev.players prev.currentPlayerIndex
                  (fun p => { p with clues := p.clues + 1 }) }
        | _ =>
          { prev with
              players := modifyIdx prev.players prev.currentPlayerIndex
                (fun p => { p with clues := p.clues + 1 }) }
      { base with tokens := base.tokens.filter (fun t => ¬(t.id = tokenId)) }
    else prev
  { afterReward with
      players := modifyIdx afterReward.players prev.currentPlayerIndex
        (fun p => { p with actionsRemaining := p.actionsRemaining - 1 }) }

end App

/-- `modifyIdx` leaves the length unchanged. -/
theorem modifyIdx_length {α : Type} (l : List α) (i : Nat) (f : α → α) :
    (modifyIdx l i f).length = l.length := by
  induction l generalizing i with
  | nil => rfl
  | cons a l ih =>
    cases i with
    | zero => rfl
    | succ i => simp [modifyIdx, ih]

/-- Reading back the modified index. -/
theorem modifyIdx_getElem? {α : Type} (l : List α) (i : Nat) (f : α → α) :
    (modifyIdx l i f)[i]? = l[i]?.map f := by
  induction l generalizing i with
  | nil => rfl
  | cons a l ih =>
    cases i with
    | zero => simp [modifyIdx]
    | succ i => simpa [modifyIdx] using ih i

/-- **C4.** For every successful Search resolution: the reward is drawn by the
threshold structure of the weighted draw — Evidence exactly on the 20% band
`roll < 1/5` and only while the escape is not open, else an Item exactly on
the following band up to `13/20` (a 45% band in the generic escape-closed
case) provided the deck was non-empty at decision time, else a Clue.  An Item
reward is granted from the end of the deck only if the deck is still
non-empty at apply time, and degrades to a Clue otherwise; the Search token
is removed; the acting player's `actionsRemaining` drops by exactly 1. -/
theorem claim_C4_search_resolution (stDec prev : GameState) (tokenId : String)
    (roll : ℚ) (p : Player)
    (hp : prev.players[prev.currentPlayerIndex]? = some p) :
    (App.rewardDecision true roll stDec = RewardType.Evidence ↔
      stDec.isEscapeOpen = false ∧ roll < 1/5) ∧
    (App.rewardDecision true roll stDec = RewardType.Item ↔
      ¬(stDec.isEscapeOpen = false ∧ roll < 1/5) ∧
        roll < 13/20 ∧ stDec.itemDeck ≠ []) ∧
    (App.rewardDecision true roll stDec = RewardType.Evidence ∨
      App.rewardDecision true roll stDec = RewardType.Item ∨
      App.rewardDecision true roll stDec = RewardType.Clue) ∧
    (∀ rwType,
      let next := App.applySearchResult prev tokenId true rwType
      next.tokens = prev.tokens.filter (fun t => ¬(t.id = tokenId)) ∧
      (∀ t ∈ next.tokens, t.id ≠ tokenId) ∧
      (rwType = RewardType.Item →
        (∀ lastItem, prev.itemDeck.getLast? = some lastItem →
          next.itemDeck = prev.itemDeck.dropLast ∧
          next.players[prev.currentPlayerIndex]? = some
            { p with items := p.items ++ [lastItem]
                     actionsRemaining := p.actionsRemaining - 1 }) ∧
        (prev.itemDeck = [] →
          next.players[prev.currentPlayerIndex]? = some
            { p with clues := p.clues + 1
                     actionsRemaining := p.actionsRemaining - 1 })) ∧
      (rwType = RewardType.Clue →
        next.players[prev.currentPlayerIndex]? = some
          { p with clues := p.clues + 1
                   actionsRemaining := p.actionsRemaining - 1 }) ∧
      (rwType = RewardType.Evidence →
        next.evidenceCollected = prev.evidenceCollected + 1 ∧
        next.players[prev.currentPlayerIndex]? = some
          { p with actionsRemaining := p.actionsRemaining - 1 })) := by
  have hout : App.rewardDecision true roll stDec =
      (if stDec.isEscapeOpen = false ∧ roll < 1/5 then RewardType.Evidence
       else if roll < 13/20 ∧ stDec.itemDeck.length > 0 then RewardType.Item
       else RewardType.Clue) := rfl
  refine ⟨?_, ?_, ?_, ?_⟩
  · rw [hout]
    by_cases h1 : stDec.isEscapeOpen = false ∧ roll < 1/5
    · rw [if_pos h1]
      exact ⟨fun _ => h1, fun _ => rfl⟩
    · rw [if_neg h1]
      by_cases h2 : roll < 13/20 ∧ stDec.itemDeck.length > 0
      · rw [if_pos h2]
        exact ⟨fun h => absurd h (by decide), fun h => absurd h h1⟩
      · rw [if_neg h2]
        exact ⟨fun h => absurd h (by decide), fun h => absurd h h1⟩
  · rw [hout]
    by_cases h1 : stDec.isEscapeOpen = false ∧ roll < 1/5
    · rw [if_pos h1]
      exact ⟨fun h => absurd h (by decide), fun h => absurd h1 h.1⟩
    · rw [if_neg h1]
      by_cases h2 : roll < 13/20 ∧ stDec.itemDeck.length > 0
      · rw [if_pos h2]
        exact ⟨fun _ => ⟨h1, h2.1, List.length_pos.mp h2.2⟩, fun _ => rfl⟩
      · rw [if_neg h2]
        refine ⟨fun h => absurd h (by decide), fun h => ?_⟩
        exact absurd ⟨h.2.1, List.length_pos.mpr h.2.2⟩ h2
  · rw [hout]
    by_cases h1 : stDec.isEscapeOpen = false ∧ roll < 1/5
    · rw [if_pos h1]; exact Or.inl rfl
    · rw [if_neg h1]
      by_cases h2 : roll < 13/20 ∧ stDec.itemDeck.length > 0
      · rw [if_pos h2]; exact Or.inr (Or.inl rfl)
      · rw [if_neg h2]; exact Or.inr (Or.inr rfl)
  · intro rwType
    have htok : (App.applySearchResult prev tokenId true rwType).tokens
        = prev.tokens.filter (fun t => ¬(t.id = tokenId)) := by
      cases rwType with
      | Item =>
        cases h : prev.itemDeck.getLast? <;>
          simp [App.applySearchResult, h]
      | Evidence => simp [App.applySearchResult]
      | Clue => simp [App.applySearchResult]
      | None => simp [App.applySearchResult]
    refine ⟨htok, ?_, ?_, ?_, ?_⟩
    · intro t ht
      rw [htok] at ht
      have h := List.of_mem_filter ht
      exact of_decide_eq_true h
    · intro hrw
      subst hrw
      constructor
      · intro lastItem hlast
        unfold App.applySearchResult
        simp only [hlast, if_true]
        refine ⟨trivial, ?_⟩
        show (modifyIdx (modifyIdx prev.players prev.currentPlayerIndex _)
                prev.currentPlayerIndex _)[prev.currentPlayerIndex]? = _
        rw [modifyIdx_getElem?, modifyIdx_getElem?, hp]
        rfl
      · intro hdeck
        unfold App.applySearchResult
        simp only [hdeck, List.getLast?_nil, if_true]
        show (modifyIdx (modifyIdx prev.players prev.currentPlayerIndex _)
                prev.currentPlayerIndex _)[prev.currentPlayerIndex]? = _
        rw [modifyIdx_getElem?, modifyIdx_getElem?, hp]
        rfl
    · intro hrw
      subst hrw
      unfold App.applySearchResult
      simp only [if_true]
      show (modifyIdx (modifyIdx prev.players prev.currentPlayerIndex _)
              prev.currentPlayerIndex _)[prev.currentPlayerIndex]? = _
      rw [modifyIdx_getElem?, modifyIdx_getElem?, hp]
      rfl
    · intro hrw
      subst hrw
      unfold App.applySearchResult
      simp only [if_true]
      refine ⟨trivial, ?_⟩
      show (modifyIdx prev.players prev.currentPlayerIndex _)[prev.currentPlayerIndex]? = _
      rw [modifyIdx_getElem?, hp]
      rfl

/-- Sample session for the C4 witness: one player, one Search token, a
one-card item deck. -/
def sampleC4State : GameState :=
  { phase := GamePhase.Playing, round := 1
    players := [{ sampleC9Player with id := "p4" }]
    monsters := [], currentPlayerIndex := 0, tiles := []
    tokens := [{ id := "tokS", type := TokenType.Search, x := 0, y := 0
                 resolved := false, direction := none, difficulty := some 2 }]
    itemDeck := ["Lantern"], evidenceCollected := 0, evidenceRequired := 5
    isEscapeOpen := false }

/-- Witness for C4 at a concrete input: a successful search with
`roll = 1/2` (the Item band) against a one-card deck. -/
theorem claim_C4_search_resolution_witness :
    (App.rewardDecision true (1/2) sampleC4State = RewardType.Evidence ↔
      sampleC4State.isEscapeOpen = false ∧ (1/2 : ℚ) < 1/5) ∧
    (App.rewardDecision true (1/2) sampleC4State = RewardType.Item ↔
      ¬(sampleC4State.isEscapeOpen = false ∧ (1/2 : ℚ) < 1/5) ∧
        (1/2 : ℚ) < 13/20 ∧ sampleC4State.itemDeck ≠ []) ∧
    (App.rewardDecision true (1/2) sampleC4State = RewardType.Evidence ∨
      App.rewardDecision true (1/2) sampleC4State = RewardType.Item ∨
      App.rewardDecision true (1/2) sampleC4State = RewardType.Clue) ∧
    (∀ rwType,
      let next := App.applySearchResult sampleC4State "tokS" true rwType
      next.tokens = sampleC4State.tokens.filter (fun t => ¬(t.id = "tokS")) ∧
      (∀ t ∈ next.tokens, t.id ≠ "tokS") ∧
      (rwType = RewardType.Item →
        (∀ lastItem, sampleC4State.itemDeck.getLast? = some lastItem →
          next.itemDeck = sampleC4State.itemDeck.dropLast ∧
          next.players[sampleC4State.currentPlayerIndex]? = some
            { { sampleC9Player with id := "p4" } with
                items := { sampleC9Player with id := "p4" }.items ++ [lastItem]
                actionsRemaining :=
                  { sampleC9Player with id := "p4" }.actionsRemaining - 1 }) ∧
        (sampleC4State.itemDeck = [] →
          next.players[sampleC4State.currentPlayerIndex]? = some
            { { sampleC9Player with id := "p4" } with
                clues := { sampleC9Player with id := "p4" }.clues + 1
                actionsRemaining :=
                  { sampleC9Player with id := "p4" }.actionsRemaining - 1 })) ∧
      (rwType = RewardType.Clue →
        next.players[sampleC4State.currentPlayerIndex]? = some
          { { sampleC9Player with id := "p4" } with
              clues := { sampleC9Player with id := "p4" }.clues + 1
              actionsRemaining :=
                { sampleC9Player with id := "p4" }.actionsRemaining - 1 }) ∧
      (rwType = RewardType.Evidence →
        next.evidenceCollected = sampleC4State.evidenceCollected + 1 ∧
        next.players[sampleC4State.currentPlayerIndex]? = some
          { { sampleC9Player with id := "p4" } with
              actionsRemaining :=
                { sampleC9Player with id := "p4" }.actionsRemaining - 1 })) :=
  claim_C4_search_resolution sampleC4State sampleC4State "tokS" (1/2)
    { sampleC9Player with id := "p4" } (by decide)

/-! ## C7: finale spawn (evidence threshold) -/

namespace App

/-- The tier-3 boss of the finale block (`src/unnamed/part_000` lines
1310–1325): `MONSTER_TEMPLATES.find(m => m.tier === 3)` yields the Shoggoth
(health 10, damage 2, horror 2); health scales with the player count and
damage/horror are raised by 1. -/
def finaleBoss (current : GameState) (spawnTile : Tile) : Monster :=
  { id := "boss", templateId := "m_shoggoth", name := "Shoggoth"
    tier := 3
    health := 10 + current.players.length * 3
    maxHealth := 10 + current.players.length * 3
    damage := 2 + 1, horror := 2 + 1
    x := spawnTile.x, y := spawnTile.y }

/-- The Escape token of the finale block (`src/unnamed/part_000` lines
1327–1334). -/
def finaleEscapeToken : Token :=
  { id := "tok_escape", type := TokenType.Escape, x := 0, y := 0
    resolved := false, direction := none, difficulty := none }

/-- The deferred finale check of `resolveSearch`
(`src/unnamed/part_000` lines 1306–1348): when the evidence threshold is met
and the escape is not yet open, spawn the tier-3 boss at a random existing
tile (`spawnIdx` models `Math.floor(Math.random() * tiles.length)`), add the
single Escape token, and latch `isEscapeOpen`. -/
def finaleCheck (current : GameState) (spawnIdx : Nat) : GameState :=
  if current.evidenceCollected ≥ current.evidenceRequired ∧
      current.isEscapeOpen = false then
    match current.tiles[spawnIdx]? with
    | some spawnTile =>
      { current with
          isEscapeOpen := true
          monsters := current.monsters ++ [finaleBoss current spawnTile]
          tokens := current.tokens ++ [finaleEscapeToken] }
    | none => current
  else current

end App

/-- **C7.** Once `evidenceCollected` reaches `evidenceRequired` (starting from
a session with no Escape token, no tier-3 monster and the escape not yet
open), the finale check leaves exactly one Escape token and exactly one
tier-3 boss in the session and latches `isEscapeOpen`; any later run of the
check against a session whose escape is already open is the identity, so
re-triggering the threshold spawns no duplicates. -/
theorem claim_C7_finale_idempotent (current : GameState) (spawnIdx : Nat)
    (htile : spawnIdx < current.tiles.length)
    (hev : current.evidenceCollected ≥ current.evidenceRequired)
    (hopen : current.isEscapeOpen = false)
    (hnoesc : ∀ t ∈ current.tokens, t.type ≠ TokenType.Escape)
    (hnoboss : ∀ m ∈ current.monsters, m.tier ≠ 3) :
    (App.finaleCheck current spawnIdx).isEscapeOpen = true ∧
    ((App.finaleCheck current spawnIdx).tokens.filter
        (fun t => t.type = TokenType.Escape)).length = 1 ∧
    ((App.finaleCheck current spawnIdx).monsters.filter
        (fun m => m.tier = 3)).length = 1 ∧
    (∀ s : GameState, s.isEscapeOpen = true → ∀ j, App.finaleCheck s j = s) ∧
    (∀ j, App.finaleCheck (App.finaleCheck current spawnIdx) j
        = App.finaleCheck current spawnIdx) := by
  have hsome : ∃ spawnTile, current.tiles[spawnIdx]? = some spawnTile := by
    rw [List.getElem?_eq_getElem htile]
    exact ⟨_, rfl⟩
  obtain ⟨spawnTile, hget⟩ := hsome
  have hid : ∀ s : GameState, s.isEscapeOpen = true → ∀ j, App.finaleCheck s j = s := by
    intro s hs j
    unfold App.finaleCheck
    rw [if_neg]
    intro ⟨_, hfalse⟩
    rw [hs] at hfalse
    exact Bool.noConfusion hfalse
  have hnext : App.finaleCheck current spawnIdx =
      { current with
          isEscapeOpen := true
          monsters := current.monsters ++ [App.finaleBoss current spawnTile]
          tokens := current.tokens ++ [App.finaleEscapeToken] } := by
    unfold App.finaleCheck
    rw [if_pos ⟨hev, hopen⟩, hget]
  have hescfilter : (current.tokens.filter
      (fun t => t.type = TokenType.Escape)) = [] := by
    rw [List.filter_eq_nil_iff]
    intro t ht
    simpa using hnoesc t ht
  have hbossfilter : (current.monsters.filter (fun m => m.tier = 3)) = [] := by
    rw [List.filter_eq_nil_iff]
    intro m hm
    simpa using hnoboss m hm
  refine ⟨by rw [hnext], ?_, ?_, hid, ?_⟩
  · rw [hnext]
    show ((current.tokens ++ [App.finaleEscapeToken]).filter _).length = 1
    rw [List.filter_append, hescfilter]
    rfl
  · rw [hnext]
    show ((current.monsters ++ [App.finaleBoss current spawnTile]).filter _).length = 1
    rw [List.filter_append, hbossfilter]
    rfl
  · intro j
    exact hid _ (by rw [hnext]) j

/-- Sample session for the C7 witness: evidence threshold met, one tile, no
boss and no Escape token yet. -/
def sampleC7State : GameState :=
  { phase := GamePhase.Playing, round := 3, players := [sampleC9Player]
    monsters := [], currentPlayerIndex := 0
    tiles := [{ id := "t0", roomId := "room_start", x := 0, y := 0
                imageType := "hallway" }]
    tokens := [], itemDeck := [], evidenceCollected := 5, evidenceRequired := 5
    isEscapeOpen := false }

/-- Witness for C7 at a concrete input. -/
theorem claim_C7_finale_idempotent_witness :
    (App.finaleCheck sampleC7State 0).isEscapeOpen = true ∧
    ((App.finaleCheck sampleC7State 0).tokens.filter
        (fun t => t.type = TokenType.Escape)).length = 1 ∧
    ((App.finaleCheck sampleC7State 0).monsters.filter
        (fun m => m.tier = 3)).length = 1 ∧
    (∀ s : GameState, s.isEscapeOpen = true → ∀ j, App.finaleCheck s j = s) ∧
    (∀ j, App.finaleCheck (App.finaleCheck sampleC7State 0) j
        = App.finaleCheck sampleC7State 0) :=
  claim_C7_finale_idempotent sampleC7State 0 (by decide) (by decide) (by decide)
    (by intro t ht; simp [sampleC7State] at ht) (by intro m hm; simp [sampleC7State] at hm)

/-! ## C8: turn rotation and round advance -/

namespace App

/-- The end-of-turn engagement block of `endTurn`
(`src/unnamed/part_000` lines 1519–1529): monsters sharing the departing
player's tile attack together (their damage and horror summed) through
`applyDamage`. -/
def endTurnAttack (s : GameState) (objective : String) : GameState :=
  match s.players[s.currentPlayerIndex]? with
  | none => s
  | some player =>
    let enemies := s.monsters.filter (fun m => m.x = player.x ∧ m.y = player.y)
    let totalDmg := (enemies.map (fun m => m.damage)).sum
    let totalHorror := (enemies.map (fun m => m.horror)).sum
    if enemies.length > 0 ∧ (totalDmg > 0 ∨ totalHorror > 0) then
      applyDamage s player.id totalDmg totalHorror objective
    else s

/-- The synchronous head of `runMythosPhase`
(`src/unnamed/part_000` lines 1389–1394): enter the Mythos phase and advance
the round counter by exactly 1 (the narrative event that follows is
asynchronous and touches neither `round` nor `currentPlayerIndex`). -/
def runMythosRoundStart (s : GameState) : GameState :=
  { s with phase := GamePhase.Mythos, round := s.round + 1 }

/-- `endMythosPhase` (`src/unnamed/part_000` lines 1367–1387): game over on an
empty player list, otherwise return to `Playing`, hand the turn back to the
first player, and refresh every player's actions/moves (1 when wounded,
else 2). -/
def endMythosPhase (s : GameState) : GameState :=
  if s.players.length = 0 then { s with phase := GamePhase.GameOver }
  else
    { s with
        phase := GamePhase.Playing
        currentPlayerIndex := 0
        players := s.players.map (fun p =>
          { p with
              actionsRemaining := if p.isWounded then 1 else 2
              movesRemaining := if p.isWounded then 1 else 2
              usedItemAbilityRound := false }) }

/-- `endTurn` (`src/unnamed/part_000` lines 1512–1543): after the engagement
attack, `nextIndex = (currentPlayerIndex + 1) % players.length`; index 0
hands over to the Mythos phase, any other index passes the turn to that
player and refreshes their actions/moves. -/
def endTurn (s : GameState) (objective : String) : GameState :=
  let damaged := endTurnAttack s objective
  let nextIndex := (s.currentPlayerIndex + 1) % s.players.length
  if nextIndex = 0 then runMythosRoundStart damaged
  else
    match damaged.players[nextIndex]? with
    | some nxt =>
      { damaged with
          currentPlayerIndex := nextIndex
          players := damaged.players.map (fun p =>
            if p.id = nxt.id then
              { p with
                  actionsRemaining := if p.isWounded then 1 else 2
                  movesRemaining := if p.isWounded then 1 else 2 }
            else p) }
    | none => { damaged with currentPlayerIndex := nextIndex }

end App

/-- **C8.** Turn order is a strict round-robin over the remaining players
(when no monster engages the departing player): ending a non-last player's
turn advances `currentPlayerIndex` to the next player in list order without
touching `round`; ending the last player's turn enters the Mythos phase with
`round` incremented by exactly 1, and closing the Mythos phase returns the
turn to the first player. -/
theorem claim_C8_turn_rotation (s : GameState) (objective : String)
    (hidx : s.currentPlayerIndex < s.players.length)
    (hquiet : ∀ p, s.players[s.currentPlayerIndex]? = some p →
      ∀ m ∈ s.monsters, ¬(m.x = p.x ∧ m.y = p.y)) :
    (s.currentPlayerIndex + 1 < s.players.length →
      (App.endTurn s objective).currentPlayerIndex = s.currentPlayerIndex + 1 ∧
      (App.endTurn s objective).round = s.round ∧
      (App.endTurn s objective).players.length = s.players.length) ∧
    (s.currentPlayerIndex + 1 = s.players.length →
      (App.endTurn s objective).round = s.round + 1 ∧
      (App.endTurn s objective).phase = GamePhase.Mythos ∧
      (App.endMythosPhase (App.endTurn s objective)).currentPlayerIndex = 0 ∧
      (App.endMythosPhase (App.endTurn s objective)).phase = GamePhase.Playing ∧
      (App.endMythosPhase (App.endTurn s objective)).round = s.round + 1) := by
  obtain ⟨player, hplayer⟩ : ∃ p, s.players[s.currentPlayerIndex]? = some p := by
    rw [List.getElem?_eq_getElem hidx]
    exact ⟨_, rfl⟩
  have hnoatk : App.endTurnAttack s objective = s := by
    unfold App.endTurnAttack
    rw [hplayer]
    have hfilter : s.monsters.filter
        (fun m => decide (m.x = player.x) && decide (m.y = player.y)) = [] := by
      rw [List.filter_eq_nil_iff]
      intro m hm
      simp only [Bool.and_eq_true, decide_eq_true_eq, not_and]
      intro hx hy
      exact hquiet player hplayer m hm ⟨hx, hy⟩
    simp [hfilter]
  constructor
  · intro hlt
    have hmod : (s.currentPlayerIndex + 1) % s.players.length
        = s.currentPlayerIndex + 1 := Nat.mod_eq_of_lt hlt
    have hne : (s.currentPlayerIndex + 1) % s.players.length ≠ 0 := by
      rw [hmod]; exact Nat.succ_ne_zero _
    obtain ⟨nxt, hnxt⟩ : ∃ q, s.players[s.currentPlayerIndex + 1]? = some q := by
      rw [List.getElem?_eq_getElem hlt]
      exact ⟨_, rfl⟩
    unfold App.endTurn
    rw [hnoatk]
    simp only [if_neg hne, hmod, hnxt]
    exact ⟨rfl, rfl, by simp⟩
  · intro heq
    have hmod : (s.currentPlayerIndex + 1) % s.players.length = 0 := by
      rw [heq]; exact Nat.mod_self _
    have hnonempty : s.players.length ≠ 0 := by omega
    unfold App.endTurn
    rw [hnoatk]
    simp only [hmod, if_pos rfl]
    unfold App.runMythosRoundStart App.endMythosPhase
    simp [hnonempty]

/-- Sample session for the C8 witness: two players, first player's turn, no
monsters engaged. -/
def sampleC8State : GameState :=
  { phase := GamePhase.Playing, round := 2
    players := [sampleC9Player, { sampleC9Player with id := "p2", name := "Ben" }]
    monsters := [], currentPlayerIndex := 0, tiles := [], tokens := []
    itemDeck := [], evidenceCollected := 0, evidenceRequired := 5
    isEscapeOpen := false }

/-- Witness for C8 at a concrete input. -/
theorem claim_C8_turn_rotation_witness :
    (sampleC8State.currentPlayerIndex + 1 < sampleC8State.players.length →
      (App.endTurn sampleC8State "obj").currentPlayerIndex
          = sampleC8State.currentPlayerIndex + 1 ∧
      (App.endTurn sampleC8State "obj").round = sampleC8State.round ∧
      (App.endTurn sampleC8State "obj").players.length
          = sampleC8State.players.length) ∧
    (sampleC8State.currentPlayerIndex + 1 = sampleC8State.players.length →
      (App.endTurn sampleC8State "obj").round = sampleC8State.round + 1 ∧
      (App.endTurn sampleC8State "obj").phase = GamePhase.Mythos ∧
      (App.endMythosPhase (App.endTurn sampleC8State "obj")).currentPlayerIndex = 0 ∧
      (App.endMythosPhase (App.endTurn sampleC8State "obj")).phase
          = GamePhase.Playing ∧
      (App.endMythosPhase (App.endTurn sampleC8State "obj")).round
          = sampleC8State.round + 1) :=
  claim_C8_turn_rotation sampleC8State "obj" (by decide)
    (by intro p hp m hm; simp [sampleC8State] at hm)

/-! ## C6: tile placement never collides -/

namespace App

/-- The entry cell one step from the door token in its direction
(`src/unnamed/part_000` lines 982–987). -/
def entryCell (tokenX tokenY : Int) (dir : Dir) : Int × Int :=
  match dir with
  | Dir.North => (tokenX, tokenY - 1)
  | Dir.South => (tokenX, tokenY + 1)
  | Dir.East => (tokenX + 1, tokenY)
  | Dir.West => (tokenX - 1, tokenY)

/-- The forward (`dx,dy`) and orthogonal (`orthoX,orthoY`) offsets of the
2×2 footprint attempt (`src/unnamed/part_000` lines 1030–1036). -/
def dirDelta (dir : Dir) : (Int × Int) × (Int × Int) :=
  match dir with
  | Dir.North => ((0, -1), (1, 0))
  | Dir.South => ((0, 1), (1, 0))
  | Dir.East => ((1, 0), (0, 1))
  | Dir.West => ((-1, 0), (0, 1))

/-- Footprint cell `p1` (forward of the entry cell). -/
def fpCell1 (e : Int × Int) (dir : Dir) : Int × Int :=
  (e.1 + (dirDelta dir).1.1, e.2 + (dirDelta dir).1.2)

/-- Footprint cell `p2` (sideways of the entry cell). -/
def fpCell2 (e : Int × Int) (dir : Dir) : Int × Int :=
  (e.1 + (dirDelta dir).2.1, e.2 + (dirDelta dir).2.2)

/-- Footprint cell `p3` (the diagonal cell). -/
def fpCell3 (e : Int × Int) (dir : Dir) : Int × Int :=
  (e.1 + (dirDelta dir).1.1 + (dirDelta dir).2.1,
   e.2 + (dirDelta dir).1.2 + (dirDelta dir).2.2)

/-- `checkOccupied` (`src/unnamed/part_000` lines 1026–1028): a cell is taken
when an existing tile or an already-accumulated new tile sits on it. -/
def cellOccupied (tiles : List Tile) (acc : List (Int × Int)) (c : Int × Int) : Bool :=
  tiles.any (fun t => t.x = c.1 ∧ t.y = c.2) || acc.any (fun a => a = c)

/-- The grid coordinates of the tiles added by an Explore resolution
(`src/unnamed/part_000` lines 989–1078): `none` models the early return when
the entry cell is already occupied (no tile is placed); hallways and closets
place only the entry tile; other rooms attempt the 2×2 footprint when all
three extra cells are free (random draw `r2x2`), else a forward (`rFwd`) or
sideways (`rSide`) extension, each checked against the existing tiles and the
tiles accumulated so far. -/
def exploreNewTileCoords (tiles : List Tile) (tokenX tokenY : Int) (dir : Dir)
    (isHallway isCloset : Bool) (r2x2 rFwd rSide : Bool) :
    Option (List (Int × Int)) :=
  if tiles.any (fun t => t.x = (entryCell tokenX tokenY dir).1 ∧
      t.y = (entryCell tokenX tokenY dir).2) then none
  else if isHallway || isCloset then some [entryCell tokenX tokenY dir]
  else if (cellOccupied tiles [entryCell tokenX tokenY dir]
        (fpCell1 (entryCell tokenX tokenY dir) dir) = false ∧
      cellOccupied tiles [entryCell tokenX tokenY dir]
        (fpCell2 (entryCell tokenX tokenY dir) dir) = false ∧
      cellOccupied tiles [entryCell tokenX tokenY dir]
        (fpCell3 (entryCell tokenX tokenY dir) dir) = false) ∧ r2x2 = true then
    some [entryCell tokenX tokenY dir,
      fpCell1 (entryCell tokenX tokenY dir) dir,
      fpCell2 (entryCell tokenX tokenY dir) dir,
      fpCell3 (entryCell tokenX tokenY dir) dir]
  else if cellOccupied tiles [entryCell tokenX tokenY dir]
      (fpCell1 (entryCell tokenX tokenY dir) dir) = false ∧ rFwd = true then
    some [entryCell tokenX tokenY dir, fpCell1 (entryCell tokenX tokenY dir) dir]
  else if cellOccupied tiles [entryCell tokenX tokenY dir]
      (fpCell2 (entryCell tokenX tokenY dir) dir) = false ∧ rSide = true then
    some [entryCell tokenX tokenY dir, fpCell2 (entryCell tokenX tokenY dir) dir]
  else some [entryCell tokenX tokenY dir]

end App

/-- The four cells of the attempted 2×2 footprint are pairwise distinct, for
every door direction. -/
theorem footprint_cells_distinct (e : Int × Int) (dir : Dir) :
    App.fpCell1 e dir ≠ e ∧ App.fpCell2 e dir ≠ e ∧ App.fpCell3 e dir ≠ e ∧
    App.fpCell1 e dir ≠ App.fpCell2 e dir ∧
    App.fpCell1 e dir ≠ App.fpCell3 e dir ∧
    App.fpCell2 e dir ≠ App.fpCell3 e dir := by
  cases dir <;>
    simp only [App.fpCell1, App.fpCell2, App.fpCell3, App.dirDelta, ne_eq,
      Prod.ext_iff, not_and] <;>
    omega

/-- Unpacking a failed `cellOccupied` check. -/
theorem cellOccupied_false {tiles : List Tile} {acc : List (Int × Int)}
    {c : Int × Int} (h : App.cellOccupied tiles acc c = false) :
    (∀ t ∈ tiles, ¬(t.x = c.1 ∧ t.y = c.2)) ∧ ∀ a ∈ acc, a ≠ c := by
  unfold App.cellOccupied at h
  rw [Bool.or_eq_false_iff] at h
  constructor
  · intro t ht hc
    have := List.any_eq_false.mp h.1 t ht
    simp [hc.1, hc.2] at this
  · intro a ha hc
    have := List.any_eq_false.mp h.2 a ha
    simp [hc] at this

/-- **C6.** Whenever an Explore resolution places tiles (the entry cell was
free — otherwise the early return places nothing), every added coordinate is
distinct from every tile present at placement time and the added coordinates
are pairwise distinct; hence a session whose tile coordinates were all
distinct keeps that invariant. -/
theorem claim_C6_no_tile_collision (tiles : List Tile) (tokenX tokenY : Int)
    (dir : Dir) (isHallway isCloset r2x2 rFwd rSide : Bool)
    (newCoords : List (Int × Int))
    (hres : App.exploreNewTileCoords tiles tokenX tokenY dir isHallway isCloset
        r2x2 rFwd rSide = some newCoords) :
    (∀ c ∈ newCoords, ∀ t ∈ tiles, ¬(t.x = c.1 ∧ t.y = c.2)) ∧
    newCoords.Nodup ∧
    ((tiles.map (fun t => (t.x, t.y))).Nodup →
      ((tiles.map (fun t => (t.x, t.y))) ++ newCoords).Nodup) := by
  have main : (∀ c ∈ newCoords, ∀ t ∈ tiles, ¬(t.x = c.1 ∧ t.y = c.2)) ∧
      newCoords.Nodup := by
    obtain ⟨hd1, hd2, hd3, hd12, hd13, hd23⟩ :=
      footprint_cells_distinct (App.entryCell tokenX tokenY dir) dir
    unfold App.exploreNewTileCoords at hres
    split_ifs at hres with h1 h2 h3 h4 h5
    all_goals
      have hentry : ∀ t ∈ tiles, ¬(t.x = (App.entryCell tokenX tokenY dir).1 ∧
          t.y = (App.entryCell tokenX tokenY dir).2) := by
        intro t ht hc
        have := List.any_eq_false.mp (Bool.eq_false_iff.mpr h1) t ht
        simp [hc.1, hc.2] at this
    · cases hres
      refine ⟨?_, by simp⟩
      intro c hc t ht
      simp only [List.mem_singleton] at hc
      subst hc
      exact hentry t ht
    · cases hres
      obtain ⟨⟨ho1, ho2, ho3⟩, _⟩ := h3
      obtain ⟨ht1, _⟩ := cellOccupied_false ho1
      obtain ⟨ht2, _⟩ := cellOccupied_false ho2
      obtain ⟨ht3, _⟩ := cellOccupied_false ho3
      constructor
      · intro c hc t ht
        simp only [List.mem_cons, List.not_mem_nil, or_false] at hc
        rcases hc with hc | hc | hc | hc <;> subst hc
        · exact hentry t ht
        · exact ht1 t ht
        · exact ht2 t ht
        · exact ht3 t ht
      · rw [List.nodup_cons, List.nodup_cons, List.nodup_cons]
        refine ⟨?_, ?_, ?_, List.nodup_singleton _⟩
        · simp only [List.mem_cons, List.not_mem_nil, or_false, not_or]
          refine ⟨?_, ?_, ?_⟩
          · intro h; exact hd1 h.symm
          · intro h; exact hd2 h.symm
          · intro h; exact hd3 h.symm
        · simp only [List.mem_cons, List.not_mem_nil, or_false, not_or]
          exact ⟨hd12, hd13⟩
        · simp only [List.mem_singleton]
          exact hd23
    · cases hres
      obtain ⟨ht1, _⟩ := cellOccupied_false h4.1
      constructor
      · intro c hc t ht
        simp only [List.mem_cons, List.not_mem_nil, or_false] at hc
        rcases hc with hc | hc <;> subst hc
        · exact hentry t ht
        · exact ht1 t ht
      · rw [List.nodup_cons]
        refine ⟨?_, List.nodup_singleton _⟩
        simp only [List.mem_singleton]
        intro h; exact hd1 h.symm
    · cases hres
      obtain ⟨ht2, _⟩ := cellOccupied_false h5.1
      constructor
      · intro c hc t ht
        simp only [List.mem_cons, List.not_mem_nil, or_false] at hc
        rcases hc with hc | hc <;> subst hc
        · exact hentry t ht
        · exact ht2 t ht
      · rw [List.nodup_cons]
        refine ⟨?_, List.nodup_singleton _⟩
        simp only [List.mem_singleton]
        intro h; exact hd2 h.symm
    · cases hres
      refine ⟨?_, by simp⟩
      intro c hc t ht
      simp only [List.mem_singleton] at hc
      subst hc
      exact hentry t ht
  refine ⟨main.1, main.2, ?_⟩
  intro hold
  rw [List.nodup_append]
  refine ⟨hold, main.2, ?_⟩
  intro c hc hcnew
  rw [List.mem_map] at hc
  obtain ⟨t, ht, hct⟩ := hc
  exact main.1 c hcnew t ht ⟨by rw [← hct], by rw [← hct]⟩

/-- Sample tiles for the C6 witness. -/
def sampleC6Tiles : List Tile :=
  [{ id := "t0", roomId := "room_start", x := 0, y := 0, imageType := "hallway" }]

/-- Witness for C6 at a concrete input: exploring north from the single
starting tile with a 2×2 room draw. -/
theorem claim_C6_no_tile_collision_witness :
    (∀ c ∈ [((0 : Int), (-1 : Int)), (0, -2), (1, -1), (1, -2)],
      ∀ t ∈ sampleC6Tiles, ¬(t.x = c.1 ∧ t.y = c.2)) ∧
    ([((0 : Int), (-1 : Int)), (0, -2), (1, -1), (1, -2)] : List (Int × Int)).Nodup ∧
    ((sampleC6Tiles.map (fun t => (t.x, t.y))).Nodup →
      ((sampleC6Tiles.map (fun t => (t.x, t.y))) ++
        [((0 : Int), (-1 : Int)), (0, -2), (1, -1), (1, -2)]).Nodup) :=
  claim_C6_no_tile_collision sampleC6Tiles 0 0 Dir.North false false true true true
    [((0 : Int), (-1 : Int)), (0, -2), (1, -1), (1, -2)] (by decide)

/-! ## C10: content-bridge offline latch -/

namespace Gemini

/-- One attempted external call's outcome, as seen by `generateWithRetry`
(`src/components/CodePuzzle.tsx`, service section, lines 421–445): a
successful response, a quota/rate-limit error (HTTP 429 / `quota` /
`EXHAUSTED`), or any other error. -/
inductive ApiOutcome where
  | ok (text : String)
  | quotaError
  | otherError
deriving DecidableEq, Repr

/-- The bridge's module state: the circuit-breaker latch
(`let isOffline = !apiKey`, line 419). -/
structure BridgeState where
  isOffline : Bool
deriving DecidableEq, Repr

/-- `generateWithRetry` (`src/components/CodePuzzle.tsx` lines 421–445):
throws `"Offline Mode"` immediately when the latch is set; a quota error
sets the latch and throws; any other error is retried (`retries` times,
doubling `delay`); the third component counts live external attempts. -/
def generateWithRetry (st : BridgeState) (outcomes : List ApiOutcome)
    (retries : Nat) (delay : Nat) : Except String String × BridgeState × Nat :=
  if st.isOffline then (Except.error "Offline Mode", st, 0)
  else
    match outcomes with
    | [] => (Except.error "NetworkError", st, 1)
    | o :: rest =>
      match o with
      | ApiOutcome.ok t => (Except.ok t, st, 1)
      | ApiOutcome.quotaError =>
        (Except.error "Quota Exceeded", { st with isOffline := true }, 1)
      | ApiOutcome.otherError =>
        if retries > 0 then
          let r := generateWithRetry st rest (retries - 1) (delay * 2)
          (r.1, r.2.1, r.2.2 + 1)
        else (Except.error "NetworkError", st, 1)

/-- The shared shape of every exported generator
(`generateIntro`, `generateRoomDiscovery`, `generateInvestigationOutcome`,
`generateMythosEvent`, `generateInsanityCondition`, lines 558–778): an
`isOffline` guard returning the deterministic fallback with no live attempt,
else a guarded call through `generateWithRetry` (one retry) whose failure
also degrades to the fallback. -/
def apiCall (st : BridgeState) (outcomes : List ApiOutcome) (fallback : String) :
    String × BridgeState × Nat :=
  if st.isOffline then (fallback, st, 0)
  else
    match generateWithRetry st outcomes 1 1000 with
    | (Except.ok t, st1, n) => (t, st1, n)
    | (Except.error _, st1, n) => (fallback, st1, n)

/-- `generateIntro` (line 558), with its fallback content abbreviated. -/
def generateIntro (st : BridgeState) (outcomes : List ApiOutcome) :
    String × BridgeState × Nat :=
  apiCall st outcomes "The Silent Manor"

/-- `generateRoomDiscovery` (line 596). -/
def generateRoomDiscovery (st : BridgeState) (outcomes : List ApiOutcome) :
    String × BridgeState × Nat :=
  apiCall st outcomes "FALLBACK_ROOM"

/-- `generateInvestigationOutcome` (line 670). -/
def generateInvestigationOutcome (st : BridgeState) (outcomes : List ApiOutcome) :
    String × BridgeState × Nat :=
  apiCall st outcomes "FALLBACK_OUTCOME"

/-- `generateMythosEvent` (line 709). -/
def generateMythosEvent (st : BridgeState) (outcomes : List ApiOutcome) :
    String × BridgeState × Nat :=
  apiCall st outcomes "FALLBACK_MYTHOS"

/-- `generateInsanityCondition` (line 754). -/
def generateInsanityCondition (st : BridgeState) (outcomes : List ApiOutcome) :
    String × BridgeState × Nat :=
  apiCall st outcomes "FALLBACK_INSANITY"

/-- A session's sequence of content-generation calls, threading the bridge
state; each call carries its world outcomes and its fallback content. -/
def runCalls (st : BridgeState) (calls : List (List ApiOutcome × String)) :
    List (String × Nat) × BridgeState :=
  match calls with
  | [] => ([], st)
  | c :: rest =>
    let r := apiCall st c.1 c.2
    let rs := runCalls r.2.1 rest
    ((r.1, r.2.2) :: rs.1, rs.2)

end Gemini

/-- **C10.** Once the bridge's latch is set — which happens exactly when a
quota error is observed — every subsequent content-generation call returns
the deterministic fallback with zero live external attempts, and the latch is
never reset: a call ending with the latch clear must have started with it
clear.  Consequently a whole session tail after the trip produces only
fallbacks without live calls. -/
theorem claim_C10_offline_latch :
    (∀ st : Gemini.BridgeState, ∀ outcomes fb, st.isOffline = true →
      Gemini.apiCall st outcomes fb = (fb, st, 0)) ∧
    (∀ st outcomes fb,
      (Gemini.apiCall st outcomes fb).2.1.isOffline = false → st.isOffline = false) ∧
    (∀ st outcomes retries delay, st.isOffline = false →
      (Gemini.generateWithRetry st (Gemini.ApiOutcome.quotaError :: outcomes)
          retries delay).2.1.isOffline = true) ∧
    (∀ st calls, st.isOffline = true →
      (Gemini.runCalls st calls).1 = calls.map (fun c => (c.2, 0)) ∧
      (Gemini.runCalls st calls).2.isOffline = true) := by
  have hoff : ∀ st : Gemini.BridgeState, ∀ outcomes fb, st.isOffline = true →
      Gemini.apiCall st outcomes fb = (fb, st, 0) := by
    intro st outcomes fb h
    unfold Gemini.apiCall
    rw [if_pos h]
  have hretry_mono : ∀ outcomes : List Gemini.ApiOutcome,
      ∀ st : Gemini.BridgeState, ∀ retries delay,
      (Gemini.generateWithRetry st outcomes retries delay).2.1.isOffline = false →
      st.isOffline = false := by
    intro outcomes
    induction outcomes with
    | nil =>
      intro st retries delay h
      unfold Gemini.generateWithRetry at h
      by_cases hst : st.isOffline = true
      · rw [if_pos hst] at h; exact h
      · exact Bool.eq_false_iff.mpr hst
    | cons o rest ih =>
      intro st retries delay h
      by_cases hst : st.isOffline = true
      · unfold Gemini.generateWithRetry at h
        rw [if_pos hst] at h
        exact h
      · exact Bool.eq_false_iff.mpr hst
  have hmono : ∀ st outcomes fb,
      (Gemini.apiCall st outcomes fb).2.1.isOffline = false →
      st.isOffline = false := by
    intro st outcomes fb h
    by_cases hst : st.isOffline = true
    · rw [hoff st outcomes fb hst] at h
      exact h
    · exact Bool.eq_false_iff.mpr hst
  refine ⟨hoff, hmono, ?_, ?_⟩
  · intro st outcomes retries delay h
    unfold Gemini.generateWithRetry
    rw [if_neg (by rw [h]; exact Bool.false_ne_true)]
  · intro st calls h
    induction calls generalizing st with
    | nil => exact ⟨rfl, h⟩
    | cons c rest ih =>
      have hc := hoff st c.1 c.2 h
      unfold Gemini.runCalls
      rw [hc]
      obtain ⟨h1, h2⟩ := ih st h
      exact ⟨by simp only []; rw [List.map_cons, h1], h2⟩

/-- Witness for C10 at concrete inputs: a latched bridge ignores a live-ready
world; a clear bridge observing a quota error latches; a latched session tail
is all fallbacks. -/
theorem claim_C10_offline_latch_witness :
    Gemini.apiCall { isOffline := true } [Gemini.ApiOutcome.ok "live"] "fb"
      = ("fb", { isOffline := true }, 0) ∧
    (Gemini.generateWithRetry { isOffline := false }
        [Gemini.ApiOutcome.quotaError] 1 1000).2.1.isOffline = true ∧
    (Gemini.runCalls { isOffline := true }
        [([Gemini.ApiOutcome.ok "a"], "f1"), ([], "f2")]).1
      = [("f1", 0), ("f2", 0)] :=
  ⟨claim_C10_offline_latch.1 { isOffline := true } [Gemini.ApiOutcome.ok "live"] "fb" rfl,
   claim_C10_offline_latch.2.2.1 { isOffline := false } [] 1 1000 rfl,
   (claim_C10_offline_latch.2.2.2 { isOffline := true }
      [([Gemini.ApiOutcome.ok "a"], "f1"), ([], "f2")] rfl).1⟩

/-! ## C2: the current combat resolution pipeline -/

namespace App

/-- The weapon rows of the `ITEMS` catalogue (`src/constants.ts` lines
220–247, entries with `type: 'Weapon'`). -/
def weaponItems : List String :=
  ["Old Revolver", "Rusty Knife", "Holy Water", "Crowbar", "Brass Knuckles",
   "Shotgun", "Ritual Dagger"]

/-- `ITEMS[i]?.type === 'Weapon'`. -/
def isWeaponItem (item : String) : Bool :=
  weaponItems.contains item

/-- `pat` is a leading prefix of `s` (character-list form). -/
def isPrefixL : List Char → List Char → Bool
  | [], _ => true
  | _ :: _, [] => false
  | p :: ps, c :: cs => p = c && isPrefixL ps cs

/-- Substring search over character lists. -/
def includesL (pat : List Char) : List Char → Bool
  | [] => isPrefixL pat []
  | c :: cs => isPrefixL pat (c :: cs) || includesL pat cs

/-- JS `s.includes(pat)`. -/
def strIncludes (s pat : String) : Bool :=
  includesL pat.data s.data

/-- The damage computed by `handleMonsterClick`
(`src/unnamed/part_000` lines 1490–1493):
`baseDmg = 1`, `weaponDmg = weapon ? (weapon.includes('Shotgun') ? 2 : 1) : 0`,
`totalDmg = baseDmg + weaponDmg`.  This value is computed and then dropped:
it is never stored in `activeDiceRoll` nor passed to the resolver. -/
def intendedCombatDamage (items : List String) : Int :=
  let weapon := items.find? (fun i => isWeaponItem i)
  let baseDmg : Int := 1
  let weaponDmg : Int :=
    match weapon with
    | some w => if strIncludes w "Shotgun" then 2 else 1
    | none => 0
  baseDmg + weaponDmg

/-- A monster as `resolveCombat` sees it, with JS number semantics: `none`
models `NaN`. -/
structure MonsterJS where
  id : String
  name : String
  health : Option Int
  tier : Nat
deriving DecidableEq, Repr

/-- JS subtraction `health - damage` where `damage` arrived as the dice-face
array (`data` in `handleActionComplete`, `src/unnamed/part_000` line 906):
`ToNumber([])` is 0, while any non-empty array of face strings coerces to
`NaN`. -/
def jsNumberOfFaces (faces : List DiceFace) : Option Int :=
  match faces with
  | [] => some 0
  | _ => none

/-- JS subtraction over possibly-`NaN` numbers. -/
def jsSub (a b : Option Int) : Option Int :=
  match a, b with
  | some x, some y => some (x - y)
  | _, _ => none

/-- JS `health <= 0`: false whenever `health` is `NaN`. -/
def jsLeZero (a : Option Int) : Bool :=
  match a with
  | some x => decide (x ≤ 0)
  | none => false

/-- `resolveCombat` of the current host (`src/unnamed/part_000` lines
1440–1464): on a hit, subtract `damage` from the target's health and splice
the monster out when the result is ≤ 0 — except that the `damage` argument it
actually receives is the dice-face array (see `combatPipeline`). -/
def resolveCombat (monsters : List MonsterJS) (monsterId : String) (hit : Bool)
    (damageData : List DiceFace) : List MonsterJS :=
  match monsters.findIdx? (fun m => m.id = monsterId) with
  | some mIdx =>
    if hit then
      let updated := modifyIdx monsters mIdx (fun m =>
        { m with health := jsSub m.health (jsNumberOfFaces damageData) })
      match updated[mIdx]? with
      | some m1 => if jsLeZero m1.health then updated.eraseIdx mIdx else updated
      | none => updated
    else monsters
  | none => monsters

/-- The full deferred-combat pipeline of the current host: the dice overlay
reports the final faces; `onComplete` (`src/unnamed/part_000` lines
1997–2009) computes `success = successes >= target` (with `target = 2` fixed
by `handleMonsterClick`, line 1503) and forwards the FACES array as `data`;
`handleActionComplete` (line 906) hands that array to `resolveCombat` as its
damage argument. -/
def combatPipeline (monsters : List MonsterJS) (monsterId : String)
    (faces : List DiceFace) (target : Nat) : List MonsterJS :=
  let successes := (faces.filter (fun f => f = DiceFace.ElderSign)).length
  let success := decide (successes ≥ target)
  resolveCombat monsters monsterId success faces

end App

/-- **C2 (code bug exhibit).** The claim's example — Strength 3, a Shotgun in
hand, one Success face, a monster at health 3 — fails on the current code:
`handleMonsterClick` does compute the claimed 3 damage (`1 + 2`), but that
value is dropped; the resolver receives the dice-face array instead, so
(a) one Success misses outright against the fixed target of 2, leaving the
monster untouched, and (b) even a passing roll subtracts the array from the
monster's health, producing `NaN`, so the monster is never removed — no
matter how low its health. -/
theorem claim_C2_combat_divergence :
    App.intendedCombatDamage ["Shotgun"] = 3 ∧
    App.combatPipeline
        [{ id := "m1", name := "Vengeful Spirit", health := some 3, tier := 2 }]
        "m1" [DiceFace.ElderSign, DiceFace.Blank, DiceFace.Blank] 2
      = [{ id := "m1", name := "Vengeful Spirit", health := some 3, tier := 2 }] ∧
    App.combatPipeline
        [{ id := "m1", name := "Vengeful Spirit", health := some 3, tier := 2 }]
        "m1" [DiceFace.ElderSign, DiceFace.ElderSign, DiceFace.Blank] 2
      = [{ id := "m1", name := "Vengeful Spirit", health := none, tier := 2 }] := by
  refine ⟨by rfl, by rfl, by rfl⟩

/-- Witness for C1 at a concrete input. -/
theorem claim_C1_dice_pass_witness :
    DiceRoller.passes [DiceFace.ElderSign, DiceFace.Clue, DiceFace.Blank]
      = [DiceFace.ElderSign, DiceFace.Clue, DiceFace.Blank].count DiceFace.ElderSign ∧
    (DiceRoller.isPass [DiceFace.ElderSign, DiceFace.Clue, DiceFace.Blank] 1 = true ↔
      [DiceFace.ElderSign, DiceFace.Clue, DiceFace.Blank].count DiceFace.ElderSign ≥ 1) ∧
    (∀ extra : List DiceFace,
      (∀ f ∈ extra, f = DiceFace.Clue ∨ f = DiceFace.Blank) →
      DiceRoller.passes ([DiceFace.ElderSign, DiceFace.Clue, DiceFace.Blank] ++ extra)
        = DiceRoller.passes [DiceFace.ElderSign, DiceFace.Clue, DiceFace.Blank] ∧
      DiceRoller.isPass ([DiceFace.ElderSign, DiceFace.Clue, DiceFace.Blank] ++ extra) 1
        = DiceRoller.isPass [DiceFace.ElderSign, DiceFace.Clue, DiceFace.Blank] 1) :=
  claim_C1_dice_pass [DiceFace.ElderSign, DiceFace.Clue, DiceFace.Blank] 1

/-- Witness for C5 at a concrete input: two clues in hand, one Clue face
converted. -/
theorem claim_C5_clue_conversion_witness :
    (∀ s : DiceRoller.RollState, ∀ i : Nat,
      DiceRoller.convertClue 2 s i = s ∨
      (s.results[i]? = some DiceFace.Clue ∧
       s.spentClues < 2 ∧
       (DiceRoller.convertClue 2 s i).results
          = s.results.set i DiceFace.ElderSign ∧
       (DiceRoller.convertClue 2 s i).spentClues = s.spentClues + 1)) ∧
    (DiceRoller.convertClues 2 ⟨[DiceFace.Clue, DiceFace.Blank], 0⟩ [0]).spentClues ≤ 2 ∧
    0 ≤ DiceRoller.deductClues 2
          (DiceRoller.convertClues 2 ⟨[DiceFace.Clue, DiceFace.Blank], 0⟩ [0]).spentClues :=
  claim_C5_clue_conversion 2 [DiceFace.Clue, DiceFace.Blank] [0]

/-! ## C3: monster movement (older host variant, `src/constants.ts`)

The older App variant kept in `src/constants.ts` (lines 1535–1607) moves every
monster each round by a breadth-first search over 4-neighbour cells gated by
the door-connectivity predicate `canMove`.  The embedding below mirrors that
code; the `while` loop becomes a fuel-indexed recursion, with the fuel chosen
large enough (proved) that exhaustion cannot occur before the queue empties. -/

/-- A grid cell. -/
abbrev Cell := Int × Int

namespace AppOld

/-- The direction from `t1` towards `t2` as computed by the sequential
reassignments in `canMove` (`src/constants.ts` lines 1542–1546); the last
true condition wins, so the x-axis comparisons override the y-axis ones. -/
def dirBetween (t1 t2 : Tile) : Option Dir :=
  if t2.x < t1.x then some Dir.West
  else if t2.x > t1.x then some Dir.East
  else if t2.y > t1.y then some Dir.South
  else if t2.y < t1.y then some Dir.North
  else none

/-- The opposite direction (`src/constants.ts` line 1552). -/
def oppDir : Dir → Dir
  | Dir.North => Dir.South
  | Dir.South => Dir.North
  | Dir.East => Dir.West
  | Dir.West => Dir.East

/-- A resolved Explore token (an open door) at `(x,y)` pointing in direction
`d` (`src/constants.ts` lines 1548–1555). -/
def doorAt (tokens : List Token) (x y : Int) (d : Dir) : Bool :=
  tokens.any (fun tok => tok.type = TokenType.Explore ∧ tok.resolved = true ∧
    tok.x = x ∧ tok.y = y ∧ tok.direction = some d)

/-- The door-connectivity predicate `canMove` (`src/constants.ts` lines
1539–1558): two tiles are traversable iff they share a `roomId`, or a
resolved Explore token sits at either tile pointing toward the other. -/
def canMove (tokens : List Token) (t1 t2 : Tile) : Bool :=
  if t1.roomId = t2.roomId then true
  else
    match dirBetween t1 t2 with
    | none => false
    | some d => doorAt tokens t1.x t1.y d || doorAt tokens t2.x t2.y (oppDir d)

/-- `tiles.find(t => t.x === x && t.y === y)`. -/
def tileAt (tiles : List Tile) (x y : Int) : Option Tile :=
  tiles.find? (fun t => t.x = x ∧ t.y = y)

/-- The 4-neighbour cells in source order
(`src/constants.ts` lines 1578–1581): up, down, right, left. -/
def neighborCells (c : Cell) : List Cell :=
  [(c.1, c.2 - 1), (c.1, c.2 + 1), (c.1 + 1, c.2), (c.1 - 1, c.2)]

/-- A player occupies the cell (`src/constants.ts` line 1570). -/
def isPlayerAt (players : List Player) (x y : Int) : Bool :=
  players.any (fun p => p.x = x ∧ p.y = y)

/-- A BFS queue entry: a cell together with the path (list of cells after the
start) that reached it (`src/constants.ts` line 1561). -/
structure QEntry where
  x : Int
  y : Int
  path : List Cell
deriving DecidableEq, Repr

/-- The entry's cell. -/
def QEntry.cell (e : QEntry) : Cell := (e.x, e.y)

/-- Processing one neighbour inside the BFS loop
(`src/constants.ts` lines 1583–1592): skip a visited cell; otherwise, when a
tile exists there and `canMove` allows the crossing, mark it visited and
enqueue it with the extended path. -/
def visitNeighbor (tiles : List Tile) (tokens : List Token) (ct : Tile)
    (px : List Cell) (acc : List QEntry × List Cell) (n : Cell) :
    List QEntry × List Cell :=
  if n ∈ acc.2 then acc
  else
    match tileAt tiles n.1 n.2 with
    | some nt =>
      if canMove tokens ct nt then
        (acc.1 ++ [⟨n.1, n.2, px ++ [n]⟩], acc.2 ++ [n])
      else acc
    | none => acc

/-- The BFS `while` loop (`src/constants.ts` lines 1567–1593): dequeue; stop
with the recorded path at the first cell occupied by any player; a cell
without a tile contributes no neighbours; otherwise fold the four neighbours
through `visitNeighbor`. -/
def bfsLoop (tiles : List Tile) (tokens : List Token) (players : List Player) :
    Nat → List QEntry → List Cell → Option (List Cell)
  | 0, _, _ => none
  | _ + 1, [], _ => none
  | fuel + 1, e :: rest, visited =>
    if isPlayerAt players e.x e.y then some e.path
    else
      match tileAt tiles e.x e.y with
      | none => bfsLoop tiles tokens players fuel rest visited
      | some ct =>
        let acc := (neighborCells e.cell).foldl
          (visitNeighbor tiles tokens ct e.path) (rest, visited)
        bfsLoop tiles tokens players fuel acc.1 acc.2

/-- The BFS run for one monster (`src/constants.ts` lines 1561–1593), from
its cell with itself pre-visited; the fuel bound `4*|tiles| + 2` strictly
dominates the loop's iteration count (each iteration dequeues one entry and
every enqueue consumes one of the at most `|tiles| + 1` distinct visitable
cells). -/
def monsterBfs (tiles : List Tile) (tokens : List Token)
    (players : List Player) (m : Monster) : Option (List Cell) :=
  bfsLoop tiles tokens players (4 * tiles.length + 2)
    [⟨m.x, m.y, []⟩] [(m.x, m.y)]

/-- Movement of a single monster (`src/constants.ts` lines 1560–1604): when
the BFS finds a non-empty path, advance `min speed path.length` steps along
it (`speed = 3` for tier-3 monsters, else 2); otherwise stay. -/
def moveMonster (tiles : List Tile) (tokens : List Token)
    (players : List Player) (m : Monster) : Monster :=
  match monsterBfs tiles tokens players m with
  | some targetPath =>
    if targetPath.length > 0 then
      let speed := if m.tier = 3 then 3 else 2
      let steps := min speed targetPath.length
      match targetPath[steps - 1]? with
      | some dest => { m with x := dest.1, y := dest.2 }
      | none => m
    else m
  | none => m

/-- `moveMonsters` (`src/constants.ts` lines 1535–1607): every monster moves
independently (the returned `logs` list is always empty in the source). -/
def moveMonsters (st : GameState) : List Monster :=
  st.monsters.map (moveMonster st.tiles st.tokens st.players)

/-- One legal monster step between cells `a` and `b`: they are 4-neighbours,
both carry tiles, and the door-connectivity predicate allows the crossing. -/
def ValidStep (tiles : List Tile) (tokens : List Token) (a b : Cell) : Prop :=
  b ∈ neighborCells a ∧
  ∃ ta tb, tileAt tiles a.1 a.2 = some ta ∧ tileAt tiles b.1 b.2 = some tb ∧
    canMove tokens ta tb = true

/-- The last cell of a path that starts at `s`. -/
def lastCell (s : Cell) (p : List Cell) : Cell := p.getLastD s

/-- A cell occupied by some player, as a proposition. -/
def GoalCell (players : List Player) (c : Cell) : Prop :=
  ∃ p ∈ players, p.x = c.1 ∧ p.y = c.2

end AppOld

/-- `isPlayerAt` decides `GoalCell`. -/
theorem isPlayerAt_iff (players : List Player) (c : Cell) :
    AppOld.isPlayerAt players c.1 c.2 = true ↔ AppOld.GoalCell players c := by
  unfold AppOld.isPlayerAt AppOld.GoalCell
  rw [List.any_eq_true]
  constructor
  · intro ⟨p, hp, hc⟩
    exact ⟨p, hp, of_decide_eq_true hc⟩
  · intro ⟨p, hp, hc⟩
    exact ⟨p, hp, decide_eq_true hc⟩

/-- `getLastD` of a cons. -/
theorem getLastD_cons_eq (a : Cell) (p : List Cell) (s : Cell) :
    (a :: p).getLastD s = p.getLastD a := by
  cases p <;> rfl

/-- Extending a chain by one step at its end. -/
theorem chain_snoc {R : Cell → Cell → Prop} {s : Cell} {p : List Cell} {c : Cell}
    (h : List.Chain R s p) (hc : R (AppOld.lastCell s p) c) :
    List.Chain R s (p ++ [c]) := by
  induction p generalizing s with
  | nil => exact List.Chain.cons hc List.Chain.nil
  | cons a p ih =>
    rw [List.chain_cons] at h
    refine List.Chain.cons h.1 (ih h.2 ?_)
    unfold AppOld.lastCell at hc ⊢
    rwa [getLastD_cons_eq] at hc

/-- The last cell of a one-step extension. -/
theorem lastCell_append_single (s : Cell) (p : List Cell) (c : Cell) :
    AppOld.lastCell s (p ++ [c]) = c := by
  unfold AppOld.lastCell
  induction p generalizing s with
  | nil => rfl
  | cons a p ih => rw [List.cons_append, getLastD_cons_eq]; exact ih a

/-- Indexing into `s :: q` with a default. -/
def cellAt (s : Cell) (q : List Cell) (j : Nat) : Cell := (s :: q).getD j s

/-- The chain relation holds between consecutive indexed cells. -/
theorem chain_step_at {R : Cell → Cell → Prop} :
    ∀ (q : List Cell) (s : Cell), List.Chain R s q →
    ∀ j, j + 1 ≤ q.length → R (cellAt s q j) (cellAt s q (j + 1)) := by
  intro q
  induction q with
  | nil => intro s _ j hj; simp at hj
  | cons a q ih =>
    intro s h j hj
    rw [List.chain_cons] at h
    cases j with
    | zero => exact h.1
    | succ j =>
      have hj' : j + 1 ≤ q.length := by simpa using hj
      have hj1 : j < (a :: q).length := by simp; omega
      have hj2 : j + 1 < (a :: q).length := by simp; omega
      show R ((a :: q).getD j s) ((a :: q).getD (j + 1) s)
      rw [List.getD_eq_getElem _ _ hj1, List.getD_eq_getElem _ _ hj2]
      have g1 := List.getD_eq_getElem (a :: q) a hj1
      have g2 := List.getD_eq_getElem (a :: q) a hj2
      rw [← g1, ← g2]
      exact ih a h.2 j hj'

/-- The indexed cell at the path's length is its last cell. -/
theorem cellAt_length (s : Cell) (q : List Cell) :
    cellAt s q q.length = AppOld.lastCell s q := by
  unfold cellAt AppOld.lastCell
  induction q generalizing s with
  | nil => rfl
  | cons a q ih =>
    show (a :: q).getD q.length s = (a :: q).getLastD s
    rw [getLastD_cons_eq]
    have hlt : q.length < (a :: q).length := by simp
    rw [List.getD_eq_getElem _ _ hlt]
    have := List.getD_eq_getElem (a :: q) a hlt
    rw [← this]
    exact ih a

/-- The indexed start cell. -/
theorem cellAt_zero (s : Cell) (q : List Cell) : cellAt s q 0 = s := rfl

/-- The BFS queue's recorded path lengths always form a block of some level
`L` followed by a block of `L+1`. -/
def LevelShape (l : List Nat) : Prop :=
  ∃ L a b, l = List.replicate a L ++ List.replicate b (L + 1)

/-- Unpacking a non-empty shaped list. -/
theorem levelShape_cons {x : Nat} {xs : List Nat} (h : LevelShape (x :: xs)) :
    (∃ a b, xs = List.replicate a x ++ List.replicate b (x + 1)) ∨
    (xs = List.replicate xs.length x) := by
  obtain ⟨L, a, b, hl⟩ := h
  cases a with
  | zero =>
    rw [List.replicate, List.nil_append] at hl
    cases b with
    | zero => exact absurd hl (by simp)
    | succ b =>
      rw [List.replicate_succ] at hl
      injection hl with h1 h2
      subst h1
      right
      rw [h2, List.length_replicate]
  | succ a =>
    rw [List.replicate_succ, List.cons_append] at hl
    injection hl with h1 h2
    subst h1
    exact Or.inl ⟨a, b, h2⟩

/-- A shaped list survives removing its head. -/
theorem levelShape_tail {x : Nat} {xs : List Nat} (h : LevelShape (x :: xs)) :
    LevelShape xs := by
  rcases levelShape_cons h with ⟨a, b, hxs⟩ | hxs
  · exact ⟨x, a, b, hxs⟩
  · exact ⟨x, xs.length, 0, by rw [hxs]; simp⟩

/-- Every element of a shaped list lies within one of the head. -/
theorem levelShape_head_le {x : Nat} {xs : List Nat} (h : LevelShape (x :: xs)) :
    ∀ y ∈ x :: xs, x ≤ y ∧ y ≤ x + 1 := by
  intro y hy
  rcases levelShape_cons h with ⟨a, b, hxs⟩ | hxs
  · rcases List.mem_cons.mp hy with hy | hy
    · omega
    · rw [hxs] at hy
      rcases List.mem_append.mp hy with hy | hy
      · have := List.eq_of_mem_replicate hy; omega
      · have := List.eq_of_mem_replicate hy; omega
  · rcases List.mem_cons.mp hy with hy | hy
    · omega
    · rw [hxs] at hy
      have := List.eq_of_mem_replicate hy; omega

/-- Dequeuing the head and appending entries one level deeper preserves the
shape. -/
theorem levelShape_dequeue {x : Nat} {xs : List Nat} (h : LevelShape (x :: xs))
    (k : Nat) : LevelShape (xs ++ List.replicate k (x + 1)) := by
  rcases levelShape_cons h with ⟨a, b, hxs⟩ | hxs
  · refine ⟨x, a, b + k, ?_⟩
    rw [hxs, List.append_assoc, ← List.replicate_add]
  · exact ⟨x, xs.length, k, by rw [hxs, List.length_replicate]⟩

namespace AppOld

/-- The cells of the queue entries. -/
def cellsOf (queue : List QEntry) : List Cell := queue.map QEntry.cell

/-- The BFS loop invariant, with a ghost level assignment `lvl` recording the
path length each visited cell was first reached with. -/
structure BfsInv (tiles : List Tile) (tokens : List Token)
    (players : List Player) (start : Cell) (queue : List QEntry)
    (visited : List Cell) (lvl : Cell → Nat) : Prop where
  entries : ∀ e ∈ queue, List.Chain (ValidStep tiles tokens) start e.path ∧
    lastCell start e.path = e.cell ∧ e.cell ∈ visited ∧
    lvl e.cell = e.path.length
  shape : LevelShape (queue.map (fun e => e.path.length))
  closed : ∀ v ∈ visited, v ∉ cellsOf queue →
    isPlayerAt players v.1 v.2 = false ∧
    ∀ w, ValidStep tiles tokens v w → w ∈ visited ∧ lvl w ≤ lvl v + 1
  vis_nodup : visited.Nodup
  cells_nodup : (cellsOf queue).Nodup
  start_mem : start ∈ visited
  start_lvl : lvl start = 0
  vis_tiles : ∀ v ∈ visited, v = start ∨ ∃ t ∈ tiles, t.x = v.1 ∧ t.y = v.2
  lvl_bound : ∀ e₀ ∈ queue.head?, ∀ v ∈ visited, lvl v ≤ e₀.path.length + 1

/-- The invariant holds initially: the monster's own cell, level 0, empty
path. -/
theorem bfsInv_init (tiles : List Tile) (tokens : List Token)
    (players : List Player) (start : Cell) :
    BfsInv tiles tokens players start [⟨start.1, start.2, []⟩] [start]
      (fun _ => 0) := by
  constructor
  · intro e he
    rw [List.mem_singleton] at he
    subst he
    exact ⟨List.Chain.nil, rfl, by simp [QEntry.cell], rfl⟩
  · exact ⟨0, 1, 0, rfl⟩
  · intro v hv hnq
    rw [List.mem_singleton] at hv
    subst hv
    exact absurd (by simp [cellsOf, QEntry.cell]) hnq
  · exact List.nodup_singleton _
  · exact List.nodup_singleton _
  · exact List.mem_singleton_self _
  · rfl
  · intro v hv
    rw [List.mem_singleton] at hv
    exact Or.inl hv
  · intro e₀ he₀ v hv
    omega

end AppOld

/-- Full characterisation of the neighbour fold: it appends to the queue one
entry per newly visited cell (path extended by that cell), marks exactly
those cells visited, never revisits, only admits cells with a tile that
`canMove` accepts, and afterwards covers every admissible processed
neighbour. -/
theorem visit_fold_spec (tiles : List Tile) (tokens : List Token) (ct : Tile)
    (px : List Cell) :
    ∀ (ns : List Cell) (q₀ : List AppOld.QEntry) (v₀ : List Cell),
    ∃ new : List Cell,
      (ns.foldl (AppOld.visitNeighbor tiles tokens ct px) (q₀, v₀)).1
        = q₀ ++ new.map (fun n => AppOld.QEntry.mk n.1 n.2 (px ++ [n])) ∧
      (ns.foldl (AppOld.visitNeighbor tiles tokens ct px) (q₀, v₀)).2
        = v₀ ++ new ∧
      new.Nodup ∧ (∀ c ∈ new, c ∉ v₀) ∧
      (∀ c ∈ new, c ∈ ns ∧ ∃ nt, AppOld.tileAt tiles c.1 c.2 = some nt ∧
        AppOld.canMove tokens ct nt = true) ∧
      (∀ n ∈ ns, (∃ nt, AppOld.tileAt tiles n.1 n.2 = some nt ∧
        AppOld.canMove tokens ct nt = true) → n ∈ v₀ ++ new) := by
  intro ns
  induction ns with
  | nil =>
    intro q₀ v₀
    refine ⟨[], by simp, by simp, List.nodup_nil, ?_, ?_, ?_⟩
    · intro c hc; exact absurd hc (List.not_mem_nil c)
    · intro c hc; exact absurd hc (List.not_mem_nil c)
    · intro n hn; exact absurd hn (List.not_mem_nil n)
  | cons n ns ih =>
    intro q₀ v₀
    rw [List.foldl_cons]
    by_cases h1 : n ∈ v₀
    · have hstep : AppOld.visitNeighbor tiles tokens ct px (q₀, v₀) n = (q₀, v₀) := by
        simp [AppOld.visitNeighbor, h1]
      rw [hstep]
      obtain ⟨new, hq, hv, hnd, hnv, hadm, hcov⟩ := ih q₀ v₀
      refine ⟨new, hq, hv, hnd, hnv, ?_, ?_⟩
      · intro c hc
        obtain ⟨hmem, hrest⟩ := hadm c hc
        exact ⟨List.mem_cons_of_mem n hmem, hrest⟩
      · intro m hm hadm'
        rcases List.mem_cons.mp hm with hm | hm
        · subst hm
          exact List.mem_append_left _ h1
        · exact hcov m hm hadm'
    · cases h2 : AppOld.tileAt tiles n.1 n.2 with
      | none =>
        have hstep : AppOld.visitNeighbor tiles tokens ct px (q₀, v₀) n = (q₀, v₀) := by
          simp [AppOld.visitNeighbor, h1, h2]
        rw [hstep]
        obtain ⟨new, hq, hv, hnd, hnv, hadm, hcov⟩ := ih q₀ v₀
        refine ⟨new, hq, hv, hnd, hnv, ?_, ?_⟩
        · intro c hc
          obtain ⟨hmem, hrest⟩ := hadm c hc
          exact ⟨List.mem_cons_of_mem n hmem, hrest⟩
        · intro m hm hadm'
          rcases List.mem_cons.mp hm with hm | hm
          · subst hm
            obtain ⟨nt, hnt, _⟩ := hadm'
            rw [h2] at hnt
            exact absurd hnt (by simp)
          · exact hcov m hm hadm'
      | some nt =>
        by_cases h3 : AppOld.canMove tokens ct nt = true
        · have hstep : AppOld.visitNeighbor tiles tokens ct px (q₀, v₀) n
              = (q₀ ++ [AppOld.QEntry.mk n.1 n.2 (px ++ [n])], v₀ ++ [n]) := by
            simp [AppOld.visitNeighbor, h1, h2, h3]
          rw [hstep]
          obtain ⟨new, hq, hv, hnd, hnv, hadm, hcov⟩ :=
            ih (q₀ ++ [AppOld.QEntry.mk n.1 n.2 (px ++ [n])]) (v₀ ++ [n])
          refine ⟨n :: new, ?_, ?_, ?_, ?_, ?_, ?_⟩
          · rw [hq, List.map_cons, List.append_assoc, List.singleton_append]
          · rw [hv, List.append_assoc, List.singleton_append]
          · rw [List.nodup_cons]
            refine ⟨?_, hnd⟩
            intro hmem
            have := hnv n hmem
            exact this (List.mem_append_right _ (List.mem_singleton_self n))
          · intro c hc
            rcases List.mem_cons.mp hc with hc | hc
            · subst hc; exact h1
            · intro hcv
              exact hnv c hc (List.mem_append_left _ hcv)
          · intro c hc
            rcases List.mem_cons.mp hc with hc | hc
            · subst hc
              exact ⟨List.mem_cons_self _ _, nt, h2, h3⟩
            · obtain ⟨hmem, hrest⟩ := hadm c hc
              exact ⟨List.mem_cons_of_mem n hmem, hrest⟩
          · intro m hm hadm'
            rcases List.mem_cons.mp hm with hm | hm
            · subst hm
              exact List.mem_append_right _ (List.mem_cons_self _ _)
            · have := hcov m hm hadm'
              rwa [List.append_assoc, List.singleton_append] at this
        · have hstep : AppOld.visitNeighbor tiles tokens ct px (q₀, v₀) n = (q₀, v₀) := by
            simp [AppOld.visitNeighbor, h1, h2, h3]
          rw [hstep]
          obtain ⟨new, hq, hv, hnd, hnv, hadm, hcov⟩ := ih q₀ v₀
          refine ⟨new, hq, hv, hnd, hnv, ?_, ?_⟩
          · intro c hc
            obtain ⟨hmem, hrest⟩ := hadm c hc
            exact ⟨List.mem_cons_of_mem n hmem, hrest⟩
          · intro m hm hadm'
            rcases List.mem_cons.mp hm with hm | hm
            · subst hm
              obtain ⟨nt', hnt', hcm'⟩ := hadm'
              rw [h2] at hnt'
              injection hnt' with hnt'
              subst hnt'
              exact absurd hcm' h3
            · exact hcov m hm hadm'

/-- A duplicate-free list contained in another is no longer than it. -/
theorem nodup_subset_length_le {α : Type} [DecidableEq α] {l₁ l₂ : List α}
    (hnd : l₁.Nodup) (hsub : l₁ ⊆ l₂) : l₁.length ≤ l₂.length :=
  (hnd.subperm hsub).length_le

/-- Dequeuing a cell with no tile (the loop's `continue`) preserves the
invariant. -/
theorem bfsInv_dequeue_notile {tiles : List Tile} {tokens : List Token}
    {players : List Player} {start : Cell} {e : AppOld.QEntry}
    {rest : List AppOld.QEntry} {visited : List Cell} {lvl : Cell → Nat}
    (hinv : AppOld.BfsInv tiles tokens players start (e :: rest) visited lvl)
    (hp : AppOld.isPlayerAt players e.x e.y = false)
    (ht : AppOld.tileAt tiles e.x e.y = none) :
    AppOld.BfsInv tiles tokens players start rest visited lvl := by
  obtain ⟨entries, shape, closed, vnd, cnd, smem, slvl, vtiles, lbound⟩ := hinv
  have hcells : AppOld.cellsOf (e :: rest) = e.cell :: AppOld.cellsOf rest := rfl
  constructor
  · intro e' he'
    exact entries e' (List.mem_cons_of_mem e he')
  · have : (e :: rest).map (fun e => e.path.length)
        = e.path.length :: rest.map (fun e => e.path.length) := rfl
    rw [this] at shape
    exact levelShape_tail shape
  · intro v hv hnq
    by_cases hve : v = e.cell
    · subst hve
      refine ⟨hp, ?_⟩
      intro w hw
      obtain ⟨_, ta, _, hta, _⟩ := hw
      have : AppOld.tileAt tiles e.x e.y = some ta := hta
      rw [ht] at this
      exact absurd this (by simp)
    · have : v ∉ AppOld.cellsOf (e :: rest) := by
        rw [hcells]
        intro hmem
        rcases List.mem_cons.mp hmem with h | h
        · exact hve h
        · exact hnq h
      exact closed v hv this
  · exact vnd
  · rw [hcells] at cnd
    exact (List.nodup_cons.mp cnd).2
  · exact smem
  · exact slvl
  · exact vtiles
  · intro e₁ he₁ v hv
    cases rest with
    | nil => simp at he₁
    | cons r rs =>
      have he₁' : r = e₁ := by simpa using he₁
      have hle := lbound e (by simp) v hv
      have hhead := levelShape_head_le shape
      have hmono : e.path.length ≤ r.path.length := by
        have hmem : r.path.length ∈
            (e :: r :: rs).map (fun e => e.path.length) := by simp
        exact (hhead r.path.length hmem).1
      rw [← he₁']
      omega

/-- A hit in `tileAt` is a tile of the list sitting at those coordinates. -/
theorem tileAt_some_mem {tiles : List Tile} {x y : Int} {t : Tile}
    (h : AppOld.tileAt tiles x y = some t) :
    t ∈ tiles ∧ t.x = x ∧ t.y = y := by
  unfold AppOld.tileAt at h
  refine ⟨List.mem_of_find?_eq_some h, ?_⟩
  have := List.find?_some h
  exact of_decide_eq_true this

/-- Mapping a constant-valued function is a `replicate`. -/
theorem map_const_replicate {α : Type} (l : List α) (c : Nat) (f : α → Nat)
    (hf : ∀ a, f a = c) : l.map f = List.replicate l.length c := by
  induction l with
  | nil => rfl
  | cons a l ih => simp [List.replicate_succ, hf a, ih]

/-- The queue cells contributed by the fold's new entries are the new cells
themselves. -/
theorem cellsOf_new_entries (px : List Cell) (new : List Cell) :
    AppOld.cellsOf (new.map (fun n => AppOld.QEntry.mk n.1 n.2 (px ++ [n])))
      = new := by
  induction new with
  | nil => rfl
  | cons n ns ih =>
    show n :: AppOld.cellsOf (ns.map _) = n :: ns
    rw [ih]

/-- Dequeuing a non-player cell with a tile and folding its neighbours
preserves the invariant; the new ghost level maps each newly visited cell to
the dequeued level plus one. -/
theorem bfsInv_dequeue_tile {tiles : List Tile} {tokens : List Token}
    {players : List Player} {start : Cell} {e : AppOld.QEntry}
    {rest : List AppOld.QEntry} {visited : List Cell} {lvl : Cell → Nat}
    (hinv : AppOld.BfsInv tiles tokens players start (e :: rest) visited lvl)
    (hp : AppOld.isPlayerAt players e.x e.y = false)
    {ct : Tile} (ht : AppOld.tileAt tiles e.x e.y = some ct) :
    ∃ new : List Cell,
      ((AppOld.neighborCells e.cell).foldl
          (AppOld.visitNeighbor tiles tokens ct e.path) (rest, visited)).1
        = rest ++ new.map (fun n => AppOld.QEntry.mk n.1 n.2 (e.path ++ [n])) ∧
      ((AppOld.neighborCells e.cell).foldl
          (AppOld.visitNeighbor tiles tokens ct e.path) (rest, visited)).2
        = visited ++ new ∧
      new.length ≤ 4 ∧
      AppOld.BfsInv tiles tokens players start
        (rest ++ new.map (fun n => AppOld.QEntry.mk n.1 n.2 (e.path ++ [n])))
        (visited ++ new)
        (fun c => if c ∈ new then e.path.length + 1 else lvl c) := by
  obtain ⟨entries, shape, closed, vnd, cnd, smem, slvl, vtiles, lbound⟩ := hinv
  obtain ⟨hchain, hlast, hecm, heclvl⟩ := entries e (List.mem_cons_self e rest)
  obtain ⟨new, hq, hv, hnd, hnv, hadm, hcov⟩ :=
    visit_fold_spec tiles tokens ct e.path (AppOld.neighborCells e.cell)
      rest visited
  have hdisj : ∀ c ∈ visited, c ∉ new := fun c hc hcn => hnv c hcn hc
  have hk4 : new.length ≤ 4 := by
    have := nodup_subset_length_le hnd (fun c hc => (hadm c hc).1)
    simpa [AppOld.neighborCells] using this
  have hrestcells : ∀ c ∈ AppOld.cellsOf rest, c ∈ visited := by
    intro c hc
    obtain ⟨e', he', hce⟩ := List.mem_map.mp hc
    rw [← hce]
    exact (entries e' (List.mem_cons_of_mem e he')).2.2.1
  have hbound : ∀ v ∈ visited, lvl v ≤ e.path.length + 1 :=
    fun v hv' => lbound e (by simp) v hv'
  have hshape_head : ∀ r ∈ rest, e.path.length ≤ r.path.length := by
    intro r hr
    have hmem : r.path.length ∈ (e :: rest).map (fun e => e.path.length) := by
      simp only [List.map_cons, List.mem_cons]
      exact Or.inr (List.mem_map.mpr ⟨r, hr, rfl⟩)
    exact (levelShape_head_le shape r.path.length hmem).1
  refine ⟨new, hq, hv, hk4, ?_⟩
  constructor
  · -- entries
    intro e' he'
    rcases List.mem_append.mp he' with he' | he'
    · obtain ⟨h1, h2, h3, h4⟩ := entries e' (List.mem_cons_of_mem e he')
      exact ⟨h1, h2, List.mem_append_left _ h3,
        by rw [if_neg (hdisj _ h3)]; exact h4⟩
    · obtain ⟨n, hn, hne⟩ := List.mem_map.mp he'
      obtain ⟨hnnbr, nt, hnt, hcmv⟩ := hadm n hn
      refine ⟨?_, ?_, ?_, ?_⟩ <;> rw [← hne]
      · exact chain_snoc hchain (by
          rw [hlast]
          exact ⟨hnnbr, ct, nt, ht, hnt, hcmv⟩)
      · show AppOld.lastCell start (e.path ++ [n]) = (n.1, n.2)
        rw [lastCell_append_single]
      · show (n.1, n.2) ∈ visited ++ new
        exact List.mem_append_right _ hn
      · show (if (n.1, n.2) ∈ new then e.path.length + 1 else lvl (n.1, n.2))
            = (e.path ++ [n]).length
        rw [if_pos hn, List.length_append, List.length_singleton]
  · -- shape
    show LevelShape ((rest ++ _).map (fun e => e.path.length))
    rw [List.map_append, List.map_map]
    have hconst : new.map ((fun e : AppOld.QEntry => e.path.length) ∘
        (fun n : Cell => AppOld.QEntry.mk n.1 n.2 (e.path ++ [n])))
        = List.replicate new.length (e.path.length + 1) := by
      apply map_const_replicate
      intro a
      show (e.path ++ [a]).length = e.path.length + 1
      rw [List.length_append, List.length_singleton]
    rw [hconst]
    exact levelShape_dequeue shape new.length
  · -- closed
    intro v hv' hnq
    rw [AppOld.cellsOf, List.map_append, ← AppOld.cellsOf, ← AppOld.cellsOf,
      cellsOf_new_entries] at hnq
    rcases List.mem_append.mp hv' with hv' | hv'
    · by_cases hve : v = e.cell
      · subst hve
        refine ⟨hp, ?_⟩
        intro w hw
        obtain ⟨hwn, ta, tb, hta, htb, hcmv⟩ := hw
        have hta' : ta = ct := by
          have : AppOld.tileAt tiles e.x e.y = some ta := hta
          rw [ht] at this
          injection this with h
          exact h.symm
        subst hta'
        have hwin := hcov w hwn ⟨tb, htb, hcmv⟩
        refine ⟨hwin, ?_⟩
        have hecell : (if e.cell ∈ new then e.path.length + 1 else lvl e.cell)
            = e.path.length := by
          rw [if_neg (hdisj _ hecm)]
          exact heclvl
        rw [hecell]
        rcases List.mem_append.mp hwin with hw' | hw'
        · rw [if_neg (hdisj _ hw')]
          exact hbound w hw'
        · rw [if_pos hw']
      · have hnotold : v ∉ AppOld.cellsOf (e :: rest) := by
          intro hmem
          rcases List.mem_cons.mp hmem with h | h
          · exact hve h
          · exact hnq (List.mem_append_left _ h)
        obtain ⟨hplayer, hnbr⟩ := closed v hv' hnotold
        refine ⟨hplayer, ?_⟩
        intro w hw
        obtain ⟨hwv, hwl⟩ := hnbr w hw
        refine ⟨List.mem_append_left _ hwv, ?_⟩
        rw [if_neg (hdisj w hwv), if_neg (hdisj v hv')]
        exact hwl
    · exact absurd (List.mem_append_right _ hv') hnq
  · -- vis_nodup
    exact vnd.append hnd (fun a ha hb => hnv a hb ha)
  · -- cells_nodup
    rw [AppOld.cellsOf, List.map_append, ← AppOld.cellsOf, ← AppOld.cellsOf,
      cellsOf_new_entries]
    have hcrest : (AppOld.cellsOf rest).Nodup := by
      have : (AppOld.cellsOf (e :: rest)) = e.cell :: AppOld.cellsOf rest := rfl
      rw [this] at cnd
      exact (List.nodup_cons.mp cnd).2
    exact hcrest.append hnd (fun a ha hb => hnv a hb (hrestcells a ha))
  · -- start_mem
    exact List.mem_append_left _ smem
  · -- start_lvl
    rw [if_neg (hdisj start smem)]
    exact slvl
  · -- vis_tiles
    intro v hv'
    rcases List.mem_append.mp hv' with hv' | hv'
    · exact vtiles v hv'
    · obtain ⟨_, nt, hnt, _⟩ := hadm v hv'
      obtain ⟨hmem, hx, hy⟩ := tileAt_some_mem hnt
      exact Or.inr ⟨nt, hmem, hx, hy⟩
  · -- lvl_bound
    intro e₀ he₀ v hv'
    have hlvlv : (if v ∈ new then e.path.length + 1 else lvl v)
        ≤ e.path.length + 1 := by
      rcases List.mem_append.mp hv' with h | h
      · rw [if_neg (hdisj v h)]
        exact hbound v h
      · rw [if_pos h]
    have hhead : e.path.length ≤ e₀.path.length := by
      cases rest with
      | nil =>
        cases hnew : new with
        | nil =>
          rw [hnew] at he₀
          simp at he₀
        | cons n ns =>
          rw [hnew] at he₀
          have : e₀ = AppOld.QEntry.mk n.1 n.2 (e.path ++ [n]) := by
            simpa using he₀.symm
          rw [this]
          show e.path.length ≤ (e.path ++ [n]).length
          rw [List.length_append]
          omega
      | cons r rs =>
        have : e₀ = r := by simpa using he₀.symm
        rw [this]
        exact hshape_head r (List.mem_cons_self r rs)
    omega

/-- Every valid path from the start to a player-occupied cell passes through
a queued cell whose recorded path is no longer than the path itself: walking
the competitor path, the invariant's closure moves the witness forward until
it must sit in the queue. -/
theorem bfs_queue_witness {tiles : List Tile} {tokens : List Token}
    {players : List Player} {start : Cell} {queue : List AppOld.QEntry}
    {visited : List Cell} {lvl : Cell → Nat}
    (hinv : AppOld.BfsInv tiles tokens players start queue visited lvl)
    (q : List Cell) (hq : List.Chain (AppOld.ValidStep tiles tokens) start q)
    (hgoal : AppOld.isPlayerAt players (AppOld.lastCell start q).1
      (AppOld.lastCell start q).2 = true) :
    ∃ e ∈ queue, e.path.length ≤ q.length := by
  have hext : ∀ j, j ≤ q.length → cellAt start q j ∈ AppOld.cellsOf queue →
      lvl (cellAt start q j) ≤ j → ∃ e ∈ queue, e.path.length ≤ q.length := by
    intro j hj hmem hlvl
    obtain ⟨e, he, hce⟩ := List.mem_map.mp hmem
    refine ⟨e, he, ?_⟩
    have := (hinv.entries e he).2.2.2
    rw [hce] at this
    omega
  suffices aux : ∀ d j, d = q.length - j → j ≤ q.length →
      cellAt start q j ∈ visited → lvl (cellAt start q j) ≤ j →
      ∃ e ∈ queue, e.path.length ≤ q.length by
    refine aux q.length 0 (by omega) (Nat.zero_le _) ?_ ?_
    · rw [cellAt_zero]; exact hinv.start_mem
    · rw [cellAt_zero, hinv.start_lvl]
  intro d
  induction d with
  | zero =>
    intro j hd hj hvis hlvl
    have hjq : j = q.length := by omega
    by_cases hmem : cellAt start q j ∈ AppOld.cellsOf queue
    · exact hext j hj hmem hlvl
    · obtain ⟨hnp, _⟩ := hinv.closed _ hvis hmem
      rw [hjq, cellAt_length] at hnp
      rw [hnp] at hgoal
      exact absurd hgoal (by simp)
  | succ d ih =>
    intro j hd hj hvis hlvl
    by_cases hmem : cellAt start q j ∈ AppOld.cellsOf queue
    · exact hext j hj hmem hlvl
    · obtain ⟨hnp, hstep⟩ := hinv.closed _ hvis hmem
      have hjlt : j < q.length := by omega
      have hvstep := chain_step_at q start hq j hjlt
      obtain ⟨hnext, hnextlvl⟩ := hstep _ hvstep
      exact ih (j + 1) (by omega) hjlt hnext (by omega)

/-- At the moment the BFS dequeues a player-occupied cell, its recorded path
is no longer than any valid path from the start to any player-occupied
cell. -/
theorem bfs_head_min {tiles : List Tile} {tokens : List Token}
    {players : List Player} {start : Cell} {e : AppOld.QEntry}
    {rest : List AppOld.QEntry} {visited : List Cell} {lvl : Cell → Nat}
    (hinv : AppOld.BfsInv tiles tokens players start (e :: rest) visited lvl)
    (q : List Cell) (hq : List.Chain (AppOld.ValidStep tiles tokens) start q)
    (hgoal : AppOld.isPlayerAt players (AppOld.lastCell start q).1
      (AppOld.lastCell start q).2 = true) :
    e.path.length ≤ q.length := by
  obtain ⟨e', he', hlen⟩ := bfs_queue_witness hinv q hq hgoal
  have hmem : e'.path.length ∈ (e :: rest).map (fun e => e.path.length) :=
    List.mem_map.mpr ⟨e', he', rfl⟩
  have h2 : e.path.length ≤ e'.path.length :=
    (levelShape_head_le hinv.shape e'.path.length hmem).1
  omega

/-- Soundness and minimality of the BFS loop: a returned path is a valid
door-connected path from the start whose last cell is occupied by a player,
and it is at least as short as every valid path from the start to any
player-occupied cell. -/
theorem bfsLoop_sound {tiles : List Tile} {tokens : List Token}
    {players : List Player} {start : Cell} :
    ∀ (fuel : Nat) (queue : List AppOld.QEntry) (visited : List Cell)
      (lvl : Cell → Nat),
    AppOld.BfsInv tiles tokens players start queue visited lvl →
    ∀ p : List Cell,
    AppOld.bfsLoop tiles tokens players fuel queue visited = some p →
    List.Chain (AppOld.ValidStep tiles tokens) start p ∧
    AppOld.isPlayerAt players (AppOld.lastCell start p).1
      (AppOld.lastCell start p).2 = true ∧
    ∀ q, List.Chain (AppOld.ValidStep tiles tokens) start q →
      AppOld.isPlayerAt players (AppOld.lastCell start q).1
        (AppOld.lastCell start q).2 = true →
      p.length ≤ q.length := by
  intro fuel
  induction fuel with
  | zero =>
    intro queue visited lvl hinv p hres
    exact absurd hres (by simp [AppOld.bfsLoop])
  | succ fuel ih =>
    intro queue visited lvl hinv p hres
    cases queue with
    | nil => exact absurd hres (by simp [AppOld.bfsLoop])
    | cons e rest =>
      by_cases hp : AppOld.isPlayerAt players e.x e.y = true
      · have : AppOld.bfsLoop tiles tokens players (fuel + 1) (e :: rest) visited
            = some e.path := by
          simp [AppOld.bfsLoop, hp]
        rw [this] at hres
        injection hres with hres
        subst hres
        obtain ⟨hchain, hlast, _, _⟩ := hinv.entries e (List.mem_cons_self e rest)
        refine ⟨hchain, ?_, ?_⟩
        · rw [hlast]; exact hp
        · intro q hq hgoal
          exact bfs_head_min hinv q hq hgoal
      · have hp' : AppOld.isPlayerAt players e.x e.y = false :=
          Bool.eq_false_iff.mpr hp
        cases ht : AppOld.tileAt tiles e.x e.y with
        | none =>
          have hstep : AppOld.bfsLoop tiles tokens players (fuel + 1)
              (e :: rest) visited
              = AppOld.bfsLoop tiles tokens players fuel rest visited := by
            simp [AppOld.bfsLoop, hp', ht]
          rw [hstep] at hres
          exact ih rest visited lvl (bfsInv_dequeue_notile hinv hp' ht) p hres
        | some ct =>
          obtain ⟨new, hq1, hv1, _, hinv'⟩ := bfsInv_dequeue_tile hinv hp' ht
          have hstep : AppOld.bfsLoop tiles tokens players (fuel + 1)
              (e :: rest) visited
              = AppOld.bfsLoop tiles tokens players fuel
                  ((AppOld.neighborCells e.cell).foldl
                    (AppOld.visitNeighbor tiles tokens ct e.path)
                    (rest, visited)).1
                  ((AppOld.neighborCells e.cell).foldl
                    (AppOld.visitNeighbor tiles tokens ct e.path)
                    (rest, visited)).2 := by
            simp [AppOld.bfsLoop, hp', ht]
          rw [hstep, hq1, hv1] at hres
          exact ih _ _ _ hinv' p hres

/-- The visited set never exceeds the number of visitable cells: the start
plus one per tile. -/
theorem visited_length_bound {tiles : List Tile} {tokens : List Token}
    {players : List Player} {start : Cell} {queue : List AppOld.QEntry}
    {visited : List Cell} {lvl : Cell → Nat}
    (hinv : AppOld.BfsInv tiles tokens players start queue visited lvl) :
    visited.length ≤ tiles.length + 1 := by
  have hsub : visited ⊆ start :: tiles.map (fun t => (t.x, t.y)) := by
    intro v hv
    rcases hinv.vis_tiles v hv with h | ⟨t, ht, hx, hy⟩
    · rw [h]; exact List.mem_cons_self _ _
    · refine List.mem_cons_of_mem _ (List.mem_map.mpr ⟨t, ht, ?_⟩)
      rw [hx, hy]
  have := nodup_subset_length_le hinv.vis_nodup hsub
  simpa using this

/-- Completeness of the BFS loop: with fuel strictly above the measure
`|queue| + 4·(|tiles| + 1 − |visited|)`, a `none` result means no valid
door-connected path from the start reaches any player-occupied cell. -/
theorem bfsLoop_complete {tiles : List Tile} {tokens : List Token}
    {players : List Player} {start : Cell} :
    ∀ (fuel : Nat) (queue : List AppOld.QEntry) (visited : List Cell)
      (lvl : Cell → Nat),
    AppOld.BfsInv tiles tokens players start queue visited lvl →
    queue.length + 4 * (tiles.length + 1 - visited.length) < fuel →
    AppOld.bfsLoop tiles tokens players fuel queue visited = none →
    ∀ q, List.Chain (AppOld.ValidStep tiles tokens) start q →
      AppOld.isPlayerAt players (AppOld.lastCell start q).1
        (AppOld.lastCell start q).2 = true → False := by
  intro fuel
  induction fuel with
  | zero =>
    intro queue visited lvl _ hfuel _
    exact absurd hfuel (Nat.not_lt_zero _)
  | succ fuel ih =>
    intro queue visited lvl hinv hfuel hres q hq hgoal
    cases queue with
    | nil =>
      obtain ⟨e, he, _⟩ := bfs_queue_witness hinv q hq hgoal
      exact absurd he (List.not_mem_nil e)
    | cons e rest =>
      by_cases hp : AppOld.isPlayerAt players e.x e.y = true
      · have : AppOld.bfsLoop tiles tokens players (fuel + 1) (e :: rest) visited
            = some e.path := by
          simp [AppOld.bfsLoop, hp]
        rw [this] at hres
        exact absurd hres (by simp)
      · have hp' : AppOld.isPlayerAt players e.x e.y = false :=
          Bool.eq_false_iff.mpr hp
        cases ht : AppOld.tileAt tiles e.x e.y with
        | none =>
          have hstep : AppOld.bfsLoop tiles tokens players (fuel + 1)
              (e :: rest) visited
              = AppOld.bfsLoop tiles tokens players fuel rest visited := by
            simp [AppOld.bfsLoop, hp', ht]
          rw [hstep] at hres
          refine ih rest visited lvl (bfsInv_dequeue_notile hinv hp' ht) ?_ hres
            q hq hgoal
          simp only [List.length_cons] at hfuel
          omega
        | some ct =>
          obtain ⟨new, hq1, hv1, hk4, hinv'⟩ := bfsInv_dequeue_tile hinv hp' ht
          have hstep : AppOld.bfsLoop tiles tokens players (fuel + 1)
              (e :: rest) visited
              = AppOld.bfsLoop tiles tokens players fuel
                  ((AppOld.neighborCells e.cell).foldl
                    (AppOld.visitNeighbor tiles tokens ct e.path)
                    (rest, visited)).1
                  ((AppOld.neighborCells e.cell).foldl
                    (AppOld.visitNeighbor tiles tokens ct e.path)
                    (rest, visited)).2 := by
            simp [AppOld.bfsLoop, hp', ht]
          rw [hstep, hq1, hv1] at hres
          refine ih _ _ _ hinv' ?_ hres q hq hgoal
          have hvb : (visited ++ new).length ≤ tiles.length + 1 :=
            visited_length_bound hinv'
          simp only [List.length_append, List.length_map, List.length_cons]
            at hvb hfuel ⊢
          omega

/-- **C3.** On every round transition (the older host's `startMythosPhase`
runs `moveMonsters`), every monster moves by breadth-first search over
4-neighbour cells gated by the door-connectivity predicate `canMove`: when
the search finds no player-reachable cell the monster stays (and indeed no
valid door-connected path from its cell to any player-occupied cell exists);
when it returns a path, that path is door-connected 4-neighbour step by
step (so the monster never crosses a wall without a shared room or a
resolved door), ends at the first — that is, a nearest — player-occupied
cell, is at least as short as every valid path to any player-occupied cell,
and the monster advances `min speed |path|` steps along it with `speed = 3`
for tier-3 monsters and 2 otherwise. -/
theorem claim_C3_monster_movement (st : GameState) (m : Monster)
    (hm : m ∈ st.monsters) :
    AppOld.moveMonster st.tiles st.tokens st.players m ∈ AppOld.moveMonsters st ∧
    (AppOld.monsterBfs st.tiles st.tokens st.players m = none →
      AppOld.moveMonster st.tiles st.tokens st.players m = m ∧
      ∀ q, List.Chain (AppOld.ValidStep st.tiles st.tokens) (m.x, m.y) q →
        ¬AppOld.GoalCell st.players (AppOld.lastCell (m.x, m.y) q)) ∧
    (∀ path, AppOld.monsterBfs st.tiles st.tokens st.players m = some path →
      List.Chain (AppOld.ValidStep st.tiles st.tokens) (m.x, m.y) path ∧
      AppOld.GoalCell st.players (AppOld.lastCell (m.x, m.y) path) ∧
      (∀ q, List.Chain (AppOld.ValidStep st.tiles st.tokens) (m.x, m.y) q →
        AppOld.GoalCell st.players (AppOld.lastCell (m.x, m.y) q) →
        path.length ≤ q.length) ∧
      (path = [] → AppOld.moveMonster st.tiles st.tokens st.players m = m) ∧
      (path ≠ [] →
        ∃ dest, path[min (if m.tier = 3 then 3 else 2) path.length - 1]?
            = some dest ∧
          AppOld.moveMonster st.tiles st.tokens st.players m
            = { m with x := dest.1, y := dest.2 })) := by
  have hinit := AppOld.bfsInv_init st.tiles st.tokens st.players (m.x, m.y)
  refine ⟨List.mem_map_of_mem _ hm, ?_, ?_⟩
  · intro hnone
    constructor
    · unfold AppOld.moveMonster
      rw [hnone]
    · intro q hq hgoal
      have hgoal' : AppOld.isPlayerAt st.players
          (AppOld.lastCell (m.x, m.y) q).1 (AppOld.lastCell (m.x, m.y) q).2
          = true := (isPlayerAt_iff _ _).mpr hgoal
      refine bfsLoop_complete (4 * st.tiles.length + 2)
        [⟨m.x, m.y, []⟩] [(m.x, m.y)] (fun _ => 0) hinit ?_ hnone q hq hgoal'
      simp only [List.length_cons, List.length_nil, List.length_singleton]
      omega
  · intro path hres
    obtain ⟨hchain, hgoal, hmin⟩ :=
      bfsLoop_sound (4 * st.tiles.length + 2) [⟨m.x, m.y, []⟩] [(m.x, m.y)]
        (fun _ => 0) hinit path hres
    refine ⟨hchain, (isPlayerAt_iff _ _).mp hgoal, ?_, ?_, ?_⟩
    · intro q hq hg
      exact hmin q hq ((isPlayerAt_iff _ _).mpr hg)
    · intro hpe
      unfold AppOld.moveMonster
      rw [hres, hpe]
      rfl
    · intro hne
      have hlen : 0 < path.length := List.length_pos.mpr hne
      have hsp : 1 ≤ min (if m.tier = 3 then 3 else 2) path.length := by
        refine Nat.le_min.mpr ⟨?_, hlen⟩
        split <;> omega
      have hsteps : min (if m.tier = 3 then 3 else 2) path.length - 1
          < path.length := by
        have := Nat.min_le_right (if m.tier = 3 then 3 else 2) path.length
        omega
      obtain ⟨dest, hdest⟩ : ∃ d, path[min (if m.tier = 3 then 3 else 2)
          path.length - 1]? = some d := by
        rw [List.getElem?_eq_getElem hsteps]
        exact ⟨_, rfl⟩
      refine ⟨dest, hdest, ?_⟩
      unfold AppOld.moveMonster
      rw [hres]
      simp only [gt_iff_lt, hlen, if_true, hdest]

/-- Sample session for the C3 witness: two tiles of one room, a player one
step north of a tier-1 monster. -/
def sampleC3Monster : Monster :=
  { id := "mon1", templateId := "m_cultist", name := "Cultist"
    health := 2, maxHealth := 2, damage := 0, horror := 1
    x := 0, y := 0, tier := 1 }

/-- Sample session state for the C3 witness. -/
def sampleC3State : GameState :=
  { phase := GamePhase.Playing, round := 1
    players := [{ sampleC9Player with id := "p3", x := 0, y := 1 }]
    monsters := [sampleC3Monster], currentPlayerIndex := 0
    tiles := [{ id := "t0", roomId := "r1", x := 0, y := 0, imageType := "hallway" },
              { id := "t1", roomId := "r1", x := 0, y := 1, imageType := "study" }]
    tokens := [], itemDeck := [], evidenceCollected := 0, evidenceRequired := 5
    isEscapeOpen := false }

/-- Witness for C3 at a concrete input. -/
theorem claim_C3_monster_movement_witness :
    AppOld.moveMonster sampleC3State.tiles sampleC3State.tokens
        sampleC3State.players sampleC3Monster ∈ AppOld.moveMonsters sampleC3State ∧
    (AppOld.monsterBfs sampleC3State.tiles sampleC3State.tokens
        sampleC3State.players sampleC3Monster = none →
      AppOld.moveMonster sampleC3State.tiles sampleC3State.tokens
          sampleC3State.players sampleC3Monster = sampleC3Monster ∧
      ∀ q, List.Chain (AppOld.ValidStep sampleC3State.tiles sampleC3State.tokens)
          (sampleC3Monster.x, sampleC3Monster.y) q →
        ¬AppOld.GoalCell sampleC3State.players
          (AppOld.lastCell (sampleC3Monster.x, sampleC3Monster.y) q)) ∧
    (∀ path, AppOld.monsterBfs sampleC3State.tiles sampleC3State.tokens
        sampleC3State.players sampleC3Monster = some path →
      List.Chain (AppOld.ValidStep sampleC3State.tiles sampleC3State.tokens)
        (sampleC3Monster.x, sampleC3Monster.y) path ∧
      AppOld.GoalCell sampleC3State.players
        (AppOld.lastCell (sampleC3Monster.x, sampleC3Monster.y) path) ∧
      (∀ q, List.Chain (AppOld.ValidStep sampleC3State.tiles sampleC3State.tokens)
          (sampleC3Monster.x, sampleC3Monster.y) q →
        AppOld.GoalCell sampleC3State.players
          (AppOld.lastCell (sampleC3Monster.x, sampleC3Monster.y) q) →
        path.length ≤ q.length) ∧
      (path = [] → AppOld.moveMonster sampleC3State.tiles sampleC3State.tokens
          sampleC3State.players sampleC3Monster = sampleC3Monster) ∧
      (path ≠ [] →
        ∃ dest, path[min (if sampleC3Monster.tier = 3 then 3 else 2)
            path.length - 1]? = some dest ∧
          AppOld.moveMonster sampleC3State.tiles sampleC3State.tokens
              sampleC3State.players sampleC3Monster
            = { sampleC3Monster with x := dest.1, y := dest.2 })) :=
  claim_C3_monster_movement sampleC3State sampleC3Monster (by decide)
